import Mathlib

/-!
Verification development for the bowerbirder job-orchestration subsystem.

The source is embedded shallowly:
  * app/config.py constants become Lean constants.
  * Redis is modelled as an association list of records, each carrying an
    optional TTL (SETEX stores a TTL, plain SET stores none, matching Redis
    semantics where SET clears any existing expiry), plus one FIFO list for
    the job queue (LPUSH prepends, BRPOP removes the last element).
  * The filesystem is modelled as lists: scratch directories, scratch files
    (keyed by directory and image index, which is in bijection with the
    img_NNN.dat path scheme of main.py), and output artifacts with mtimes.
  * External collaborators (PIL decode, EXIF transpose, LANCZOS resampling,
    JPEG encoding, base64 decoding, fal.ai upload/generate, httpx fetch) are
    parameters collected in a Gateway structure; the code of the repository
    itself (flattening, resizing, validation, orchestration, cleanup) is
    translated directly.
  * Exceptions raised by network or store calls are injected through a
    Faults structure; a raised call leaves the store untouched and control
    follows the Python try/except/finally structure of worker.py.
  * Ghost fields (history of successful status writes, enqueue/delivery
    logs, recorded generate calls) are appended by the embedded operations
    and never read by them; they only serve the theorems.
-/

namespace Bowerbirder

/-! ## Configuration constants (app/config.py, app/main.py, app/settings.py) -/

def MIN_IMAGES : Nat := 2
def MAX_IMAGES : Nat := 6
def MAX_QUEUED_JOBS : Nat := 10
def MAX_IMAGE_SIZE : Nat := 20 * 1024 * 1024
def MAX_TOTAL_SIZE : Nat := 100 * 1024 * 1024
def OPTIMIZE_MAX_SIZE : Nat := 768
def OPTIMIZE_QUALITY : Nat := 85
def API_BASE_URL : String := "http://api:8000"

/-- STYLE_PRESETS of app/config.py: key, display name, prompt. -/
def STYLE_PRESETS : List (String × String × String) :=
  [("fridge", "On the Fridge",
    "Tightly clustered photos pinned with colorful fruit-shaped magnets on a teal refrigerator door, photos overlapping each other significantly, filling most of the frame with minimal background visible, cozy family photo collage"),
   ("scrapbook", "Old Scrapbook",
    "Arrange these photos on a vintage scrapbook page with aged cream paper texture, simple washi tape to hold photos in place, minimal subtle decorations only, photos are the focus not the background, no flowers no stickers no nametags no keys, clean understated nostalgic feel"),
   ("clean", "Clean",
    "Arrange these photos in a clean, modern gallery layout on a pure white background with subtle drop shadows, balanced spacing")]

def ASPECT_RATIOS : List String := ["16:9", "1:1", "9:16"]

/-- Settings that the embedded operations read; image_expiry_minutes defaults
to 30 as in app/settings.py. -/
structure Config where
  imageExpiryMinutes : Nat := 30
deriving DecidableEq, Repr

/-! ## Data model -/

/-- Job status values of the record's status field. -/
inductive Status where
  | queued | processing | completed | failed
deriving DecidableEq, Repr

/-- Scratch file path: os.path.join(image_dir, f"img_{i:03d}.dat") is in
bijection with the pair (directory, index), which is how paths are modelled. -/
structure SPath where
  dir : String
  idx : Nat
deriving DecidableEq, Repr

/-- The JSON job record of main.py create_job, with the fields the worker
later adds.  The created_at timestamp is informational only and not
modelled. -/
structure JobRecord where
  jobId : String
  status : Status
  statusDetail : Option String := none
  imagePaths : List SPath := []
  imageDir : Option String := none
  style : String := ""
  aspectRatio : String := ""
  imageUrl : Option String := none
  expiresAt : Option String := none
  error : Option String := none
deriving DecidableEq, Repr

/-- Whole-system state: the Redis store (records with optional TTL and the
job_queue list), the scratch and output filesystem, and ghost logs used only
by the theorems. -/
structure SysState where
  jobs : List (String × JobRecord × Option Nat)
  queue : List String
  scratchDirs : List String
  scratchFiles : List (SPath × String)
  artifacts : List (String × Nat)
  history : List (String × Status)
  enqueuedLog : List String
  deliveredLog : List String
  genCalls : List (String × List String × String)
deriving DecidableEq, Repr

def initState : SysState :=
  { jobs := [], queue := [], scratchDirs := [], scratchFiles := [],
    artifacts := [], history := [], enqueuedLog := [], deliveredLog := [],
    genCalls := [] }

/-! ## Store primitives -/

/-- redis GET job:id, returning the record and its remaining-TTL flag. -/
def jobGet (st : SysState) (j : String) : Option (JobRecord × Option Nat) :=
  (st.jobs.find? (fun e => e.1 == j)).map (fun e => e.2)

/-- redis SETEX job:id ttl value. -/
def jobSetex (j : String) (r : JobRecord) (ttl : Nat) (st : SysState) : SysState :=
  { st with jobs := (j, r, some ttl) :: st.jobs.filter (fun e => e.1 != j) }

/-- redis SET job:id value: a plain SET discards any existing TTL. -/
def jobSetPlain (j : String) (r : JobRecord) (st : SysState) : SysState :=
  { st with jobs := (j, r, none) :: st.jobs.filter (fun e => e.1 != j) }

/-- redis DELETE job:id. -/
def jobDel (j : String) (st : SysState) : SysState :=
  { st with jobs := st.jobs.filter (fun e => e.1 != j) }

def jobStatus (st : SysState) (j : String) : Option Status :=
  (jobGet st j).map (fun p => p.1.status)

def jobTTL (st : SysState) (j : String) : Option (Option Nat) :=
  (jobGet st j).map (fun p => p.2)

def readFile (st : SysState) (p : SPath) : Option String :=
  (st.scratchFiles.find? (fun e => e.1 == p)).map (fun e => e.2)

def writeFile (p : SPath) (contents : String) (st : SysState) : SysState :=
  { st with scratchFiles := (p, contents) :: st.scratchFiles.filter (fun e => e.1 != p) }

/-- shutil.rmtree of one job's scratch directory (ignore_errors=True). -/
def rmtree (d : String) (st : SysState) : SysState :=
  { st with scratchDirs := st.scratchDirs.filter (fun x => x != d),
            scratchFiles := st.scratchFiles.filter (fun e => e.1.dir != d) }

/-! ## ImageNormalizer: optimize_image of app/worker.py -/

/-- Pixel in one of the PIL modes the code distinguishes. -/
inductive Pix where
  | rgba (r g b a : Nat)
  | la (l a : Nat)
  | pal (i : Nat)
  | lum (v : Nat)
  | rgb (r g b : Nat)
deriving DecidableEq, Repr

inductive PMode where
  | RGBA | LA | P | L | RGB
deriving DecidableEq, Repr

structure PImage where
  mode : PMode
  width : Nat
  height : Nat
  pix : List Pix
  palette : List (Nat × Nat × Nat × Nat)
deriving DecidableEq, Repr

/-- Alpha-composite one channel over a white background, as PIL paste with an
alpha mask does; at a = 0 the result is exactly the background (255) and at
a = 255 exactly the source, the only alpha values the claims quantify over
(PIL rounds intermediate alphas slightly differently, which no claim uses). -/
def blendWhite (c a : Nat) : Nat := (c * a + 255 * (255 - a)) / 255

def palLookup (pal : List (Nat × Nat × Nat × Nat)) (i : Nat) : Nat × Nat × Nat × Nat :=
  pal.getD i (0, 0, 0, 255)

/-- img.convert('RGBA') on a palette pixel. -/
def toRGBAPix (pal : List (Nat × Nat × Nat × Nat)) : Pix → Pix
  | .pal i => let q := palLookup pal i; .rgba q.1 q.2.1 q.2.2.1 q.2.2.2
  | p => p

/-- background.paste(img, mask=alpha): composite over white using the alpha
channel. -/
def pasteMaskedPix : Pix → Pix
  | .rgba r g b a => .rgb (blendWhite r a) (blendWhite g a) (blendWhite b a)
  | p => p

/-- background.paste(img) with mask=None: the pasted image is converted to
RGB and fully overwrites the background, so LA alpha is discarded and the
luminance value survives. -/
def pasteUnmaskedPix : Pix → Pix
  | .la l _ => .rgb l l l
  | .rgba r g b _ => .rgb r g b
  | .lum v => .rgb v v v
  | .pal i => .pal i
  | .rgb r g b => .rgb r g b

/-- The mode-conversion block of optimize_image (worker.py lines 74-84):
RGBA/LA/P are pasted onto a white background, with the alpha mask passed only
when the mode is RGBA (P becomes RGBA first, so it also gets the mask; LA
does not); plain L is converted to RGB. -/
def optimizeFlatten (img : PImage) : PImage :=
  match img.mode with
  | .RGBA => { img with mode := .RGB, pix := img.pix.map pasteMaskedPix, palette := [] }
  | .P =>
      let img2 : PImage :=
        { img with mode := .RGBA, pix := img.pix.map (toRGBAPix img.palette), palette := [] }
      { img2 with mode := .RGB, pix := img2.pix.map pasteMaskedPix }
  | .LA => { img with mode := .RGB, pix := img.pix.map pasteUnmaskedPix, palette := [] }
  | .L => { img with mode := .RGB, pix := img.pix.map pasteUnmaskedPix, palette := [] }
  | .RGB => img

/-- The resize arithmetic of optimize_image (worker.py lines 86-91):
ratio = 768 / max(w, h); resize only when ratio < 1, i.e. when 768 < max;
int(w * ratio) equals floor(w * 768 / max), i.e. Nat division (Python
evaluates this in floating point, which agrees with the exact value on the
bounds the claims state). -/
def resizeDims (w h : Nat) : Nat × Nat :=
  let m := max w h
  if OPTIMIZE_MAX_SIZE < m then
    (w * OPTIMIZE_MAX_SIZE / m, h * OPTIMIZE_MAX_SIZE / m)
  else (w, h)

/-- img.resize(new_size, Image.LANCZOS); the resampled pixel data is supplied
by the external resample parameter. -/
def resizeImage (resample : PImage → Nat → Nat → List Pix) (img : PImage) : PImage :=
  let m := max img.width img.height
  if OPTIMIZE_MAX_SIZE < m then
    let w' := img.width * OPTIMIZE_MAX_SIZE / m
    let h' := img.height * OPTIMIZE_MAX_SIZE / m
    { img with width := w', height := h', pix := resample img w' h' }
  else img

/-! ## External collaborators -/

/-- External library calls used by the worker: base64 decoding, PIL
Image.open (none = undecodable input), ImageOps.exif_transpose, LANCZOS
resampling, JPEG encoding, fal_client.upload, fal_client.subscribe (returning
the list of result image URLs), and the httpx download. -/
structure Gateway where
  b64decode : String → String
  decodePix : String → Option PImage
  exifT : PImage → PImage
  resample : PImage → Nat → Nat → List Pix
  jpegEncode : PImage → String
  upload : String → String
  generate : String → List String → String → List String
  fetch : String → String

/-- decode_base64_image of worker.py: strip a data: URL header before
decoding.  (A data: URL with no comma raises ValueError in Python; that
data-dependent raise is folded into the optRaises fault of the caller.) -/
def decode_base64_image (b64decode : String → String) (dataUrl : String) : String :=
  if dataUrl.startsWith "data:" then
    match dataUrl.splitOn "," with
    | [] => b64decode dataUrl
    | _header :: rest => b64decode (String.intercalate "," rest)
  else b64decode dataUrl

/-- optimize_image of worker.py: decode, EXIF-transpose, flatten, resize;
the pre-encoding pixel image. -/
def optimizedPImage (g : Gateway) (imageData : String) : Option PImage :=
  (g.decodePix imageData).map fun im => resizeImage g.resample (optimizeFlatten (g.exifT im))

/-- optimize_image of worker.py: the JPEG bytes finally returned. -/
def optimize_image (g : Gateway) (imageData : String) : Option String :=
  (optimizedPImage g imageData).map g.jpegEncode

def optimizedBytes (g : Gateway) (dataUrl : String) : Option String :=
  optimize_image g (decode_base64_image g.b64decode dataUrl)

/-! ## update_job_status (worker.py lines 49-58) -/

/-- Keyword arguments passed to update_job_status; a statusDetail of
some none models status_detail=None (the key set to JSON null). -/
structure Extra where
  statusDetail : Option (Option String) := none
  error : Option String := none
  imageUrl : Option String := none
  expiresAt : Option String := none
deriving DecidableEq, Repr

def applyExtra (e : Extra) (r : JobRecord) : JobRecord :=
  let r1 := match e.statusDetail with
    | some v => { r with statusDetail := v }
    | none => r
  let r2 := match e.error with
    | some m => { r1 with error := some m }
    | none => r1
  let r3 := match e.imageUrl with
    | some u => { r2 with imageUrl := some u }
    | none => r2
  match e.expiresAt with
  | some x => { r3 with expiresAt := some x }
  | none => r3

/-- Keyword arguments of the recurring progress updates:
status_detail=msg. -/
def progressExtra (msg : String) : Extra := { statusDetail := some (some msg) }

/-- Keyword arguments of the completed transition: image_url, expires_at,
status_detail=None. -/
def completedExtra (url exp : String) : Extra :=
  { statusDetail := some none, imageUrl := some url, expiresAt := some exp }

/-- Keyword arguments of the failed transition: error=msg,
status_detail=None. -/
def failedExtra (msg : String) : Extra :=
  { statusDetail := some none, error := some msg }

/-- update_job_status: GET, no-op when the record is gone, then a plain SET
of the merged record (which stores no TTL).  setRaises injects a store
exception at the SET; the returned flag reports whether the call raised.
A successful write is also appended to the ghost history. -/
def update_job_status (setRaises : Bool) (jobId : String) (status : Status)
    (extra : Extra) (st : SysState) : SysState × Bool :=
  match jobGet st jobId with
  | none => (st, false)
  | some (job, _ttl) =>
    if setRaises then (st, true)
    else
      let job' := applyExtra extra { job with status := status }
      let st1 := jobSetPlain jobId job' st
      ({ st1 with history := st1.history ++ [(jobId, status)] }, false)

/-! ## create_job (main.py lines 124-205) -/

structure JobRequest where
  images : List String
  style : String := "fridge"
  aspectRatio : String := "16:9"
deriving DecidableEq, Repr

inductive AdmissionError where
  | serverBusy
  | tooFewImages
  | tooManyImages
  | imageTooLarge (i : Nat)
  | totalTooLarge
  | invalidStyle
  | invalidAspect
  | saveFailed
deriving DecidableEq, Repr

instance exceptDecEq {e a : Type} [DecidableEq e] [DecidableEq a] :
    DecidableEq (Except e a) := fun x y =>
  match x, y with
  | .ok u, .ok v =>
    if h : u = v then .isTrue (by rw [h]) else .isFalse (by simp [h])
  | .error u, .error v =>
    if h : u = v then .isTrue (by rw [h]) else .isFalse (by simp [h])
  | .ok _, .error _ => .isFalse (by simp)
  | .error _, .ok _ => .isFalse (by simp)

/-- First index whose payload exceeds the per-image cap, as the validation
loop raises at the first offender. -/
def firstOversize : List String → Nat → Option Nat
  | [], _ => none
  | img :: rest, i =>
    if MAX_IMAGE_SIZE < img.length then some i else firstOversize rest (i + 1)

/-- The image-saving loop of create_job: write each payload verbatim to
img_{i:03d}.dat, collecting the paths in order; writeOk i = false injects an
IO exception at image i (the partial state and none are returned, and the
caller rolls back). -/
def saveImages (writeOk : Nat → Bool) (dir : String) :
    List String → Nat → SysState → SysState × Option (List SPath)
  | [], _, st => (st, some [])
  | img :: rest, i, st =>
    if writeOk i then
      let p : SPath := ⟨dir, i⟩
      let st' := writeFile p img st
      match saveImages writeOk dir rest (i + 1) st' with
      | (st2, some ps) => (st2, some (p :: ps))
      | (st2, none) => (st2, none)
    else (st, none)

/-- create_job: backpressure check, count checks, per-image and total size
checks, style and aspect-ratio validation, then scratch writes, the SETEX of
the record with TTL = IMAGE_EXPIRY_MINUTES * 2 * 60, and the LPUSH of the id.
A failed scratch write removes the partial directory and rejects.  The ghost
history and enqueue log record the successful admission. -/
def create_job (cfg : Config) (writeOk : Nat → Bool) (jobId : String)
    (req : JobRequest) (st : SysState) : SysState × Except AdmissionError String :=
  if MAX_QUEUED_JOBS ≤ st.queue.length then (st, .error .serverBusy)
  else if req.images.length < MIN_IMAGES then (st, .error .tooFewImages)
  else if MAX_IMAGES < req.images.length then (st, .error .tooManyImages)
  else
    match firstOversize req.images 0 with
    | some i => (st, .error (.imageTooLarge i))
    | none =>
      if MAX_TOTAL_SIZE < (req.images.map String.length).sum then
        (st, .error .totalTooLarge)
      else if (STYLE_PRESETS.find? (fun e => e.1 == req.style)).isNone then
        (st, .error .invalidStyle)
      else if !(ASPECT_RATIOS.contains req.aspectRatio) then
        (st, .error .invalidAspect)
      else
        let imageDir := jobId
        let st1 := { st with scratchDirs :=
          if st.scratchDirs.contains imageDir then st.scratchDirs
          else imageDir :: st.scratchDirs }
        match saveImages writeOk imageDir req.images 0 st1 with
        | (st2, none) => (rmtree imageDir st2, .error .saveFailed)
        | (st2, some paths) =>
          let job : JobRecord :=
            { jobId := jobId, status := .queued, statusDetail := none,
              imagePaths := paths, imageDir := some imageDir,
              style := req.style, aspectRatio := req.aspectRatio,
              imageUrl := none, expiresAt := none, error := none }
          let ttl := cfg.imageExpiryMinutes * 2 * 60
          let st3 := jobSetex jobId job ttl st2
          let st4 := { st3 with
            queue := jobId :: st3.queue,
            history := st3.history ++ [(jobId, Status.queued)],
            enqueuedLog := st3.enqueuedLog ++ [jobId] }
          (st4, .ok jobId)

/-! ## process_job (worker.py lines 117-227) -/

/-- Exception injection for the worker pipeline.  updateRaises n makes the
n-th update_job_status SET inside the numbered body raise (call 0 is the
transition to processing that precedes the try block); failUpdRaises applies
to the update inside the except handler.  The remaining flags make the
correspondingly named external call raise. -/
structure Faults where
  updateRaises : Nat → Bool
  failUpdRaises : Bool
  readRaises : Nat → Bool
  optRaises : Nat → Bool
  upRaises : Nat → Bool
  genRaises : Bool
  fetchRaises : Bool
  saveRaises : Bool

def noFaults : Faults :=
  { updateRaises := fun _ => false, failUpdRaises := false,
    readRaises := fun _ => false, optRaises := fun _ => false,
    upRaises := fun _ => false, genRaises := false, fetchRaises := false,
    saveRaises := false }

/-- Style preset lookup with the fridge fallback:
STYLE_PRESETS.get(style_key, STYLE_PRESETS["fridge"])["prompt"]. -/
def stylePrompt (key : String) : String :=
  match STYLE_PRESETS.find? (fun e => e.1 == key) with
  | some e => e.2.2
  | none =>
    match STYLE_PRESETS.find? (fun e => e.1 == "fridge") with
    | some e => e.2.2
    | none => ""

/-- Models the expires_at ISO timestamp (now + IMAGE_EXPIRY_MINUTES) as an
opaque string. -/
def expiresAtIso (now : Nat) (cfg : Config) : String :=
  toString (now + cfg.imageExpiryMinutes * 60)

/-- The f-string "Optimizing image i+1/N..." of the optimize loop. -/
def optMsg (i total : Nat) : String :=
  "Optimizing image " ++ toString (i + 1) ++ "/" ++ toString total ++ "..."

/-- The f-string "Uploading image i+1/N..." of the upload loop. -/
def upMsg (i total : Nat) : String :=
  "Uploading image " ++ toString (i + 1) ++ "/" ++ toString total ++ "..."

/-- The per-image optimize loop of process_job: progress update, read the
staged payload, base64-decode and optimize.  Any raise aborts with the
exception's message; results are collected in order. -/
def optimizeLoop (g : Gateway) (f : Faults) (jobId : String) (total : Nat) :
    List SPath → Nat → Nat → SysState → SysState × Nat × Except String (List String)
  | [], _, u, st => (st, u, .ok [])
  | p :: rest, i, u, st =>
    match update_job_status (f.updateRaises u) jobId .processing
        (progressExtra (optMsg i total)) st with
    | (st1, true) => (st1, u + 1, .error "redis error")
    | (st1, false) =>
      if f.readRaises i then (st1, u + 1, .error "read error")
      else
        match readFile st1 p with
        | none => (st1, u + 1, .error "file not found")
        | some dataUrl =>
          if f.optRaises i then (st1, u + 1, .error "optimize error")
          else
            match optimizedBytes g dataUrl with
            | none => (st1, u + 1, .error "cannot identify image file")
            | some ob =>
              match optimizeLoop g f jobId total rest (i + 1) (u + 1) st1 with
              | (st2, u2, .ok obs) => (st2, u2, .ok (ob :: obs))
              | (st2, u2, .error m) => (st2, u2, .error m)

/-- The per-image upload loop of process_job: progress update, then
fal_client.upload, collecting URLs in order. -/
def uploadLoop (g : Gateway) (f : Faults) (jobId : String) (total : Nat) :
    List String → Nat → Nat → SysState → SysState × Nat × Except String (List String)
  | [], _, u, st => (st, u, .ok [])
  | ob :: rest, i, u, st =>
    match update_job_status (f.updateRaises u) jobId .processing
        (progressExtra (upMsg i total)) st with
    | (st1, true) => (st1, u + 1, .error "redis error")
    | (st1, false) =>
      if f.upRaises i then (st1, u + 1, .error "upload error")
      else
        match uploadLoop g f jobId total rest (i + 1) (u + 1) st1 with
        | (st2, u2, .ok urls) => (st2, u2, .ok (g.upload ob :: urls))
        | (st2, u2, .error m) => (st2, u2, .error m)

/-- The try-block body of process_job: optimize loop, upload loop, style
prompt resolution, the fal.ai generate call (arguments recorded in the ghost
genCalls log), result download, artifact persist, and the transition to
completed.  Any raise exits with the exception's message. -/
def pjTryBody (g : Gateway) (f : Faults) (cfg : Config) (now : Nat)
    (jobId : String) (job : JobRecord) (st : SysState) :
    SysState × Except String Unit :=
  let paths := job.imagePaths
  match optimizeLoop g f jobId paths.length paths 0 1 st with
  | (st1, _, .error m) => (st1, .error m)
  | (st1, u1, .ok optimizedImages) =>
    match update_job_status (f.updateRaises u1) jobId .processing
        (progressExtra "Uploading images...") st1 with
    | (st2, true) => (st2, .error "redis error")
    | (st2, false) =>
      match uploadLoop g f jobId optimizedImages.length optimizedImages 0 (u1 + 1) st2 with
      | (st3, _, .error m) => (st3, .error m)
      | (st3, u3, .ok imageUrls) =>
        let prompt := stylePrompt job.style
        match update_job_status (f.updateRaises u3) jobId .processing
            (progressExtra "Generating collage...") st3 with
        | (st4, true) => (st4, .error "redis error")
        | (st4, false) =>
          if f.genRaises then (st4, .error "fal error")
          else
            let st4b := { st4 with genCalls :=
              st4.genCalls ++ [(prompt, imageUrls, job.aspectRatio)] }
            match g.generate prompt imageUrls job.aspectRatio with
            | [] => (st4b, .error "No images returned from fal.ai")
            | resultUrl :: _ =>
              match update_job_status (f.updateRaises (u3 + 1)) jobId .processing
                  (progressExtra "Downloading result...") st4b with
              | (st5, true) => (st5, .error "redis error")
              | (st5, false) =>
                if f.fetchRaises then (st5, .error "download error")
                else
                  let _resultBytes := g.fetch resultUrl
                  if f.saveRaises then (st5, .error "save error")
                  else
                    let st6 := { st5 with artifacts :=
                      (jobId, now) :: st5.artifacts.filter (fun a => a.1 != jobId) }
                    let url := API_BASE_URL ++ "/output/" ++ jobId ++ ".png"
                    match update_job_status (f.updateRaises (u3 + 2)) jobId .completed
                        (completedExtra url (expiresAtIso now cfg)) st6 with
                    | (st7, true) => (st7, .error "redis error")
                    | (st7, false) => (st7, .ok ())

/-- The finally block: clean up the scratch directory when image_dir is set. -/
def pjCleanup (imageDir : Option String) (st : SysState) : SysState :=
  match imageDir with
  | none => st
  | some d => rmtree d st

/-- process_job: load the record (absent record is a silent no-op), the
transition to processing that the code places before the try block, then the
try body; on failure the except handler marks the job failed with the
exception's message, and the finally block removes the scratch directory.
The returned flag reports whether an exception escaped process_job.  Because
the first update precedes the try, its raise skips both the handler and the
cleanup, exactly as in worker.py lines 127-227. -/
def process_job (g : Gateway) (f : Faults) (cfg : Config) (now : Nat)
    (jobId : String) (st : SysState) : SysState × Bool :=
  match jobGet st jobId with
  | none => (st, false)
  | some (job, _) =>
    match update_job_status (f.updateRaises 0) jobId .processing
        (progressExtra "Optimizing images...") st with
    | (st0, true) => (st0, true)
    | (st0, false) =>
      match pjTryBody g f cfg now jobId job st0 with
      | (st1, .ok _) => (pjCleanup job.imageDir st1, false)
      | (st1, .error msg) =>
        match update_job_status f.failUpdRaises jobId .failed
            (failedExtra msg) st1 with
        | (st2, raised) => (pjCleanup job.imageDir st2, raised)

/-! ## cleanup_expired_images (worker.py lines 230-254) -/

/-- The sweep over the artifact listing: delete each file older than the
expiry window together with its job record.  unlinkRaises and delRaises
inject per-file exceptions; the first raise aborts the remainder (the flag
false reports the abort), because in the code the try block wraps the whole
loop. -/
def sweep (unlinkRaises delRaises : String → Bool) (now expirySeconds : Nat) :
    List (String × Nat) → SysState → SysState × Bool
  | [], st => (st, true)
  | (jid, mtime) :: rest, st =>
    if expirySeconds < now - mtime then
      if unlinkRaises jid then (st, false)
      else
        let st1 := { st with artifacts := st.artifacts.filter (fun a => a.1 != jid) }
        if delRaises jid then (st1, false)
        else sweep unlinkRaises delRaises now expirySeconds rest (jobDel jid st1)
    else sweep unlinkRaises delRaises now expirySeconds rest st

/-- cleanup_expired_images: sweep the artifact listing; the surrounding
try/except catches any error, so the call always returns (and the reaper
thread survives to run later sweeps). -/
def cleanup_expired_images (unlinkRaises delRaises : String → Bool) (now : Nat)
    (cfg : Config) (st : SysState) : SysState :=
  (sweep unlinkRaises delRaises now (cfg.imageExpiryMinutes * 60) st.artifacts st).1

/-! ## The worker main loop (worker.py lines 281-299) -/

/-- One iteration of the claim loop: BRPOP atomically removes the last queue
element (the oldest, since LPUSH prepends); when the shutdown flag is
observed after the dequeue the id is discarded, otherwise process_job runs
(its escaping exceptions are caught by the loop, which continues with
whatever state the job left).  The delivery is recorded in the ghost log. -/
def workerIteration (g : Gateway) (f : Faults) (cfg : Config) (now : Nat)
    (shutdownAfterDequeue : Bool) (st : SysState) : SysState :=
  match st.queue.getLast? with
  | none => st
  | some jobId =>
    let st1 := { st with
      queue := st.queue.dropLast,
      deliveredLog := st.deliveredLog ++ [jobId] }
    if shutdownAfterDequeue then st1
    else (process_job g f cfg now jobId st1).1

/-! ## The whole system as a transition system -/

/-- One atomic system event: a submission (with its fresh id and write-fault
oracle), one worker iteration, or one reaper sweep. -/
inductive SysOp where
  | submit (writeOk : Nat → Bool) (newId : String) (req : JobRequest)
  | worker (g : Gateway) (f : Faults) (now : Nat) (shutdownAfterDequeue : Bool)
  | reap (unlinkRaises delRaises : String → Bool) (now : Nat)

def step (cfg : Config) (st : SysState) : SysOp → SysState
  | .submit w id req => (create_job cfg w id req st).1
  | .worker g f now sh => workerIteration g f cfg now sh st
  | .reap u d now => cleanup_expired_images u d now cfg st

def run (cfg : Config) (st : SysState) (ops : List SysOp) : SysState :=
  ops.foldl (step cfg) st

/-- Freshness of a submitted id, the property uuid4 generation provides: the
id has never been enqueued, recorded, processed or given an artifact. -/
def freshB (st : SysState) (j : String) : Bool :=
  (jobGet st j).isNone && !(st.enqueuedLog.contains j) &&
  st.history.all (fun e => e.1 != j) && st.artifacts.all (fun a => a.1 != j) &&
  !(st.queue.contains j)

def opOK (st : SysState) : SysOp → Bool
  | .submit _ id _ => freshB st id
  | _ => true

/-- A run is well formed when every submission uses a fresh id. -/
def runOK (cfg : Config) : SysState → List SysOp → Bool
  | _, [] => true
  | st, op :: ops => opOK st op && runOK cfg (step cfg st op) ops

/-! ## Status histories -/

def histOfL (h : List (String × Status)) (j : String) : List Status :=
  (h.filter (fun e => e.1 == j)).map (fun e => e.2)

/-- The sequence of status values successfully written for job j, in order. -/
def histOf (st : SysState) (j : String) : List Status :=
  histOfL st.history j

def rank : Status → Nat
  | .queued => 0
  | .processing => 1
  | .completed => 2
  | .failed => 2

def isTerminal : Status → Bool
  | .completed => true
  | .failed => true
  | _ => false

/-- One admissible consecutive pair of statuses: the rank never decreases and
nothing follows a terminal status. -/
def stepAdmissible (a b : Status) : Prop := rank a ≤ rank b ∧ isTerminal a = false

/-- The status sequence moves only along queued, processing, terminal, and
never leaves a terminal status. -/
def ChainOK (l : List Status) : Prop := l.Chain' stepAdmissible

/-! ## Basic list lemmas -/

theorem find?_filter_ne {α β : Type} [DecidableEq α] (l : List (α × β)) (k j : α)
    (h : k ≠ j) :
    (l.filter (fun e => e.1 != j)).find? (fun e => e.1 == k) =
      l.find? (fun e => e.1 == k) := by
  induction l with
  | nil => rfl
  | cons a t ih =>
    by_cases hj : a.1 = j
    · have h2 : ¬ ((fun (e : α × β) => e.1 == k) a = true) := by
        simp only [beq_iff_eq]
        intro hk; exact h (hk ▸ hj)
      have h1 : ¬ ((fun (e : α × β) => e.1 != j) a = true) := by
        simp [hj]
      rw [List.filter_cons_of_neg (p := fun (e : α × β) => e.1 != j) h1, ih,
        List.find?_cons_of_neg (p := fun (e : α × β) => e.1 == k) _ h2]
    · have h1 : ((fun (e : α × β) => e.1 != j) a) = true := by
        simp [hj]
      rw [List.filter_cons_of_pos (p := fun (e : α × β) => e.1 != j) h1]
      by_cases hk : ((fun (e : α × β) => e.1 == k) a = true)
      · rw [List.find?_cons_of_pos (p := fun (e : α × β) => e.1 == k) _ hk,
          List.find?_cons_of_pos (p := fun (e : α × β) => e.1 == k) _ hk]
      · rw [List.find?_cons_of_neg (p := fun (e : α × β) => e.1 == k) _ hk,
          List.find?_cons_of_neg (p := fun (e : α × β) => e.1 == k) _ hk, ih]

theorem dropLast_concat_getLast? :
    ∀ {l : List String} {k : String}, l.getLast? = some k → l.dropLast ++ [k] = l := by
  intro l
  induction l with
  | nil => intro k h; cases h
  | cons a t ih =>
    intro k h
    cases t with
    | nil => simp only [List.getLast?_singleton, Option.some.injEq] at h; subst h; rfl
    | cons b u =>
      rw [List.getLast?_cons_cons] at h
      have ih2 := ih h
      simpa [List.dropLast] using congrArg (a :: ·) ih2

theorem mem_of_getLast? {l : List String} {k : String} (h : l.getLast? = some k) :
    k ∈ l := by
  rw [← dropLast_concat_getLast? h]
  exact List.mem_append_right _ (List.mem_singleton_self k)

theorem not_mem_dropLast_of_nodup {l : List String} {k : String}
    (hn : l.Nodup) (h : l.getLast? = some k) : k ∉ l.dropLast := by
  have heq := dropLast_concat_getLast? h
  rw [← heq] at hn
  rcases List.nodup_append.1 hn with ⟨_, _, hdisj⟩
  intro hk
  exact hdisj hk (List.mem_singleton_self k)

theorem nodup_dropLast_of_nodup {l : List String} (hn : l.Nodup) : l.dropLast.Nodup :=
  (List.dropLast_sublist l).nodup hn

/-! ## Store lemmas -/

theorem jobGet_setPlain_self (j : String) (r : JobRecord) (st : SysState) :
    jobGet (jobSetPlain j r st) j = some (r, none) := by
  simp [jobGet, jobSetPlain, List.find?_cons_of_pos]

theorem jobGet_setPlain_ne (j : String) (r : JobRecord) (st : SysState) (k : String)
    (h : k ≠ j) : jobGet (jobSetPlain j r st) k = jobGet st k := by
  have hh : ¬ ((fun (e : String × JobRecord × Option Nat) => e.1 == k)
      (j, r, (none : Option Nat)) = true) := by
    simp only [beq_iff_eq]; exact fun hk => h (hk ▸ rfl)
  simp only [jobGet, jobSetPlain]
  rw [List.find?_cons_of_neg (p := fun (e : String × JobRecord × Option Nat) => e.1 == k) _ hh,
    find?_filter_ne _ _ _ h]

theorem jobGet_setex_self (j : String) (r : JobRecord) (ttl : Nat) (st : SysState) :
    jobGet (jobSetex j r ttl st) j = some (r, some ttl) := by
  simp [jobGet, jobSetex, List.find?_cons_of_pos]

theorem jobGet_setex_ne (j : String) (r : JobRecord) (ttl : Nat) (st : SysState)
    (k : String) (h : k ≠ j) : jobGet (jobSetex j r ttl st) k = jobGet st k := by
  have hh : ¬ ((fun (e : String × JobRecord × Option Nat) => e.1 == k)
      (j, r, some ttl) = true) := by
    simp only [beq_iff_eq]; exact fun hk => h (hk ▸ rfl)
  simp only [jobGet, jobSetex]
  rw [List.find?_cons_of_neg (p := fun (e : String × JobRecord × Option Nat) => e.1 == k) _ hh,
    find?_filter_ne _ _ _ h]

theorem jobGet_del_ne (j : String) (st : SysState) (k : String) (h : k ≠ j) :
    jobGet (jobDel j st) k = jobGet st k := by
  simp only [jobGet, jobDel]
  rw [find?_filter_ne _ _ _ h]

theorem readFile_writeFile_self (p : SPath) (c : String) (st : SysState) :
    readFile (writeFile p c st) p = some c := by
  simp [readFile, writeFile, List.find?_cons_of_pos]

theorem readFile_writeFile_ne (p : SPath) (c : String) (st : SysState) (q : SPath)
    (h : q ≠ p) : readFile (writeFile p c st) q = readFile st q := by
  have hh : ¬ ((fun (e : SPath × String) => e.1 == q) (p, c) = true) := by
    simp only [beq_iff_eq]; exact fun hk => h (hk ▸ rfl)
  simp only [readFile, writeFile]
  rw [List.find?_cons_of_neg (p := fun (e : SPath × String) => e.1 == q) _ hh,
    find?_filter_ne _ _ _ h]

/-! ## History lemmas -/

theorem histOfL_append (h1 h2 : List (String × Status)) (j : String) :
    histOfL (h1 ++ h2) j = histOfL h1 j ++ histOfL h2 j := by
  simp [histOfL, List.filter_append]

theorem histOfL_single_self (j : String) (s : Status) : histOfL [(j, s)] j = [s] := by
  simp [histOfL]

theorem histOfL_single_ne (j k : String) (s : Status) (h : k ≠ j) :
    histOfL [(j, s)] k = [] := by
  simp only [histOfL, List.filter_cons, List.filter_nil]
  have : ¬ ((j, s).1 == k) = true := by
    simp only [beq_iff_eq]; exact fun hk => h (hk ▸ rfl)
  simp [this]

/-! ## update_job_status characterization -/

theorem upd_cases (b : Bool) (j : String) (s : Status) (e : Extra) (st : SysState) :
    (update_job_status b j s e st = (st, false) ∧ jobGet st j = none) ∨
    (update_job_status b j s e st = (st, true) ∧ b = true ∧ jobGet st j ≠ none) ∨
    (∃ job ttl, jobGet st j = some (job, ttl) ∧ b = false ∧
      update_job_status b j s e st =
        ({ jobSetPlain j (applyExtra e { job with status := s }) st with
           history := st.history ++ [(j, s)] }, false)) := by
  unfold update_job_status
  cases hg : jobGet st j with
  | none => exact Or.inl ⟨rfl, rfl⟩
  | some p =>
    obtain ⟨job, ttl⟩ := p
    cases b with
    | true => exact Or.inr (Or.inl ⟨rfl, rfl, by simp⟩)
    | false => exact Or.inr (Or.inr ⟨job, ttl, rfl, rfl, rfl⟩)

theorem upd_queue (b : Bool) (j : String) (s : Status) (e : Extra) (st : SysState) :
    (update_job_status b j s e st).1.queue = st.queue := by
  rcases upd_cases b j s e st with ⟨h, _⟩ | ⟨h, _, _⟩ | ⟨job, ttl, _, _, h⟩ <;>
    rw [h] <;> rfl

theorem upd_enq (b : Bool) (j : String) (s : Status) (e : Extra) (st : SysState) :
    (update_job_status b j s e st).1.enqueuedLog = st.enqueuedLog := by
  rcases upd_cases b j s e st with ⟨h, _⟩ | ⟨h, _, _⟩ | ⟨job, ttl, _, _, h⟩ <;>
    rw [h] <;> rfl

theorem upd_dlv (b : Bool) (j : String) (s : Status) (e : Extra) (st : SysState) :
    (update_job_status b j s e st).1.deliveredLog = st.deliveredLog := by
  rcases upd_cases b j s e st with ⟨h, _⟩ | ⟨h, _, _⟩ | ⟨job, ttl, _, _, h⟩ <;>
    rw [h] <;> rfl

theorem upd_scratchDirs (b : Bool) (j : String) (s : Status) (e : Extra) (st : SysState) :
    (update_job_status b j s e st).1.scratchDirs = st.scratchDirs := by
  rcases upd_cases b j s e st with ⟨h, _⟩ | ⟨h, _, _⟩ | ⟨job, ttl, _, _, h⟩ <;>
    rw [h] <;> rfl

theorem upd_scratchFiles (b : Bool) (j : String) (s : Status) (e : Extra) (st : SysState) :
    (update_job_status b j s e st).1.scratchFiles = st.scratchFiles := by
  rcases upd_cases b j s e st with ⟨h, _⟩ | ⟨h, _, _⟩ | ⟨job, ttl, _, _, h⟩ <;>
    rw [h] <;> rfl

theorem upd_artifacts (b : Bool) (j : String) (s : Status) (e : Extra) (st : SysState) :
    (update_job_status b j s e st).1.artifacts = st.artifacts := by
  rcases upd_cases b j s e st with ⟨h, _⟩ | ⟨h, _, _⟩ | ⟨job, ttl, _, _, h⟩ <;>
    rw [h] <;> rfl

theorem upd_genCalls (b : Bool) (j : String) (s : Status) (e : Extra) (st : SysState) :
    (update_job_status b j s e st).1.genCalls = st.genCalls := by
  rcases upd_cases b j s e st with ⟨h, _⟩ | ⟨h, _, _⟩ | ⟨job, ttl, _, _, h⟩ <;>
    rw [h] <;> rfl

theorem upd_jobGet_ne (b : Bool) (j : String) (s : Status) (e : Extra) (st : SysState)
    (k : String) (h : k ≠ j) :
    jobGet (update_job_status b j s e st).1 k = jobGet st k := by
  rcases upd_cases b j s e st with ⟨hh, _⟩ | ⟨hh, _, _⟩ | ⟨job, ttl, _, _, hh⟩ <;> rw [hh]
  exact jobGet_setPlain_ne j (applyExtra e { job with status := s }) st k h

theorem upd_hist_ne (b : Bool) (j : String) (s : Status) (e : Extra) (st : SysState)
    (k : String) (h : k ≠ j) :
    histOf (update_job_status b j s e st).1 k = histOf st k := by
  rcases upd_cases b j s e st with ⟨hh, _⟩ | ⟨hh, _, _⟩ | ⟨job, ttl, _, _, hh⟩ <;> rw [hh]
  show histOfL (st.history ++ [(j, s)]) k = histOfL st.history k
  rw [histOfL_append, histOfL_single_ne _ _ _ h, List.append_nil]

theorem upd_hist_self (b : Bool) (j : String) (s : Status) (e : Extra) (st : SysState) :
    histOf (update_job_status b j s e st).1 j = histOf st j ∨
    histOf (update_job_status b j s e st).1 j = histOf st j ++ [s] := by
  rcases upd_cases b j s e st with ⟨hh, _⟩ | ⟨hh, _, _⟩ | ⟨job, ttl, _, _, hh⟩ <;> rw [hh]
  · exact Or.inl rfl
  · exact Or.inl rfl
  · refine Or.inr ?_
    show histOfL (st.history ++ [(j, s)]) j = histOfL st.history j ++ [s]
    rw [histOfL_append, histOfL_single_self]

theorem upd_present (b : Bool) (j : String) (s : Status) (e : Extra) (st : SysState) :
    (jobGet (update_job_status b j s e st).1 j).isSome = (jobGet st j).isSome := by
  rcases upd_cases b j s e st with ⟨hh, _⟩ | ⟨hh, _, _⟩ | ⟨job, ttl, hg, _, hh⟩ <;> rw [hh]
  show (jobGet (jobSetPlain j (applyExtra e { job with status := s }) st) j).isSome =
    (jobGet st j).isSome
  rw [jobGet_setPlain_self, hg]
  rfl

theorem upd_raised (b : Bool) (j : String) (s : Status) (e : Extra) (st : SysState)
    (h : (update_job_status b j s e st).2 = true) :
    (update_job_status b j s e st).1 = st := by
  rcases upd_cases b j s e st with ⟨hh, _⟩ | ⟨hh, _, _⟩ | ⟨job, ttl, _, _, hh⟩ <;>
    rw [hh] at h ⊢
  all_goals first
  | rfl
  | simp at h

theorem upd_false_not_raised (j : String) (s : Status) (e : Extra) (st : SysState) :
    (update_job_status false j s e st).2 = false := by
  rcases upd_cases false j s e st with ⟨hh, _⟩ | ⟨hh, hb, _⟩ | ⟨job, ttl, _, _, hh⟩
  · rw [hh]
  · simp at hb
  · rw [hh]

theorem upd_ttl_none (j : String) (s : Status) (e : Extra) (st : SysState)
    (hp : jobGet st j ≠ none) :
    jobTTL (update_job_status false j s e st).1 j = some none := by
  rcases upd_cases false j s e st with ⟨hh, hg⟩ | ⟨hh, hb, _⟩ | ⟨job, ttl, _, _, hh⟩
  · exact absurd hg hp
  · simp at hb
  · rw [hh]
    show jobTTL (jobSetPlain j (applyExtra e { job with status := s }) st) j = some none
    simp [jobTTL, jobGet_setPlain_self]

/-! ## The frame of one process_job run

PJFrame k st st' collects everything a process_job run on job k leaves
untouched: the queue, both ghost logs, every other job's record, history and
artifacts, and the presence of k's own record. -/

structure PJFrame (k : String) (st st' : SysState) : Prop where
  queueEq : st'.queue = st.queue
  enqEq : st'.enqueuedLog = st.enqueuedLog
  dlvEq : st'.deliveredLog = st.deliveredLog
  jobsNe : ∀ j, j ≠ k → jobGet st' j = jobGet st j
  presSelf : (jobGet st' k).isSome = (jobGet st k).isSome
  histNe : ∀ j, j ≠ k → histOf st' j = histOf st j
  artNe : ∀ j t, j ≠ k → ((j, t) ∈ st'.artifacts ↔ (j, t) ∈ st.artifacts)

theorem pjframe_rfl (k : String) (st : SysState) : PJFrame k st st :=
  ⟨rfl, rfl, rfl, fun _ _ => rfl, rfl, fun _ _ => rfl, fun _ _ _ => Iff.rfl⟩

theorem pjframe_trans {k : String} {a b c : SysState} (h1 : PJFrame k a b)
    (h2 : PJFrame k b c) : PJFrame k a c :=
  ⟨h2.queueEq.trans h1.queueEq, h2.enqEq.trans h1.enqEq, h2.dlvEq.trans h1.dlvEq,
   fun j hj => (h2.jobsNe j hj).trans (h1.jobsNe j hj),
   h2.presSelf.trans h1.presSelf,
   fun j hj => (h2.histNe j hj).trans (h1.histNe j hj),
   fun j t hj => (h2.artNe j t hj).trans (h1.artNe j t hj)⟩

theorem upd_frame (b : Bool) (j : String) (s : Status) (e : Extra) (st : SysState) :
    PJFrame j st (update_job_status b j s e st).1 :=
  ⟨upd_queue b j s e st, upd_enq b j s e st, upd_dlv b j s e st,
   fun k hk => upd_jobGet_ne b j s e st k hk,
   upd_present b j s e st,
   fun k hk => upd_hist_ne b j s e st k hk,
   fun k t _ => by rw [upd_artifacts]⟩

theorem mem_cons_filter_artifacts (j : String) (t : Nat) (k : String) (now : Nat)
    (arts : List (String × Nat)) (h : j ≠ k) :
    ((j, t) ∈ (k, now) :: arts.filter (fun a => a.1 != k)) ↔ (j, t) ∈ arts := by
  constructor
  · intro hm
    rcases List.mem_cons.1 hm with he | hf
    · rw [Prod.mk.injEq] at he
      exact absurd he.1 h
    · exact (List.mem_filter.1 hf).1
  · intro hm
    refine List.mem_cons.2 (Or.inr (List.mem_filter.2 ⟨hm, ?_⟩))
    simp [h]

theorem pjframe_genCalls (k : String) (st : SysState)
    (gc : List (String × List String × String)) :
    PJFrame k st { st with genCalls := gc } :=
  ⟨rfl, rfl, rfl, fun _ _ => rfl, rfl, fun _ _ => rfl, fun _ _ _ => Iff.rfl⟩

theorem pjframe_artInsert (k : String) (st : SysState) (now : Nat) :
    PJFrame k st { st with artifacts := (k, now) :: st.artifacts.filter (fun a => a.1 != k) } :=
  ⟨rfl, rfl, rfl, fun _ _ => rfl, rfl, fun _ _ => rfl,
   fun j t hj => mem_cons_filter_artifacts j t k now st.artifacts hj⟩

theorem pjframe_cleanup (k : String) (d : Option String) (st : SysState) :
    PJFrame k st (pjCleanup d st) := by
  cases d with
  | none => exact pjframe_rfl _ _
  | some x =>
    exact ⟨rfl, rfl, rfl, fun _ _ => rfl, rfl, fun _ _ => rfl, fun _ _ _ => Iff.rfl⟩

theorem pjCleanup_hist (d : Option String) (st : SysState) (k : String) :
    histOf (pjCleanup d st) k = histOf st k := by
  cases d <;> rfl

theorem pjCleanup_genCalls (d : Option String) (st : SysState) :
    (pjCleanup d st).genCalls = st.genCalls := by
  cases d <;> rfl

theorem append_processing_replicate (l : List Status) (n : Nat) :
    l ++ [Status.processing] ++ List.replicate n Status.processing =
      l ++ List.replicate (n + 1) Status.processing := by
  rw [List.append_assoc]
  rfl

/-! ## Loop specifications -/

/-- What the tail of a process_job run may do to the state seen from job
jobId: respect the frame and append only processing entries to its history. -/
def ProcTail (jobId : String) (st st' : SysState) : Prop :=
  PJFrame jobId st st' ∧
  ∃ n, histOf st' jobId = histOf st jobId ++ List.replicate n Status.processing

theorem procTail_rfl (jobId : String) (st : SysState) : ProcTail jobId st st :=
  ⟨pjframe_rfl _ _, 0, by simp⟩

theorem procTail_trans {jobId : String} {a b c : SysState}
    (h1 : ProcTail jobId a b) (h2 : ProcTail jobId b c) : ProcTail jobId a c := by
  obtain ⟨hF1, n1, hH1⟩ := h1
  obtain ⟨hF2, n2, hH2⟩ := h2
  refine ⟨pjframe_trans hF1 hF2, n1 + n2, ?_⟩
  rw [hH2, hH1, List.append_assoc, ← List.replicate_add]

theorem upd_procTail (b : Bool) (jobId : String) (e : Extra) (st st1 : SysState)
    (rb : Bool)
    (hU : update_job_status b jobId Status.processing e st = (st1, rb)) :
    ProcTail jobId st st1 := by
  have hF := upd_frame b jobId Status.processing e st
  have hH := upd_hist_self b jobId Status.processing e st
  rw [hU] at hF hH
  refine ⟨hF, ?_⟩
  rcases hH with h | h
  · exact ⟨0, by simpa using h⟩
  · exact ⟨1, h⟩

theorem optimizeLoop_spec (g : Gateway) (f : Faults) (jobId : String) (total : Nat) :
    ∀ (ps : List SPath) (i u : Nat) (st : SysState),
      ProcTail jobId st (optimizeLoop g f jobId total ps i u st).1 := by
  intro ps
  induction ps with
  | nil =>
    intro i u st
    exact procTail_rfl _ _
  | cons p rest ih =>
    intro i u st
    simp only [optimizeLoop]
    split
    next st1 hU => exact upd_procTail _ _ _ _ _ _ hU
    next st1 hU =>
      have hx := upd_procTail _ _ _ _ _ _ hU
      split
      next hr => exact hx
      next hr =>
        split
        next hRF => exact hx
        next dataUrl hRF =>
          split
          next ho => exact hx
          next ho =>
            split
            next hOB => exact hx
            next ob hOB =>
              split
              next st2 u2 obs hRec =>
                refine procTail_trans hx ?_
                have hy := ih (i + 1) (u + 1) st1
                rw [hRec] at hy
                exact hy
              next st2 u2 m hRec =>
                refine procTail_trans hx ?_
                have hy := ih (i + 1) (u + 1) st1
                rw [hRec] at hy
                exact hy

theorem uploadLoop_spec (g : Gateway) (f : Faults) (jobId : String) (total : Nat) :
    ∀ (obs : List String) (i u : Nat) (st : SysState),
      ProcTail jobId st (uploadLoop g f jobId total obs i u st).1 := by
  intro obs
  induction obs with
  | nil =>
    intro i u st
    exact procTail_rfl _ _
  | cons ob rest ih =>
    intro i u st
    simp only [uploadLoop]
    split
    next st1 hU => exact upd_procTail _ _ _ _ _ _ hU
    next st1 hU =>
      have hx := upd_procTail _ _ _ _ _ _ hU
      split
      next hr => exact hx
      next hr =>
        split
        next st2 u2 urls hRec =>
          refine procTail_trans hx ?_
          have hy := ih (i + 1) (u + 1) st1
          rw [hRec] at hy
          exact hy
        next st2 u2 m hRec =>
          refine procTail_trans hx ?_
          have hy := ih (i + 1) (u + 1) st1
          rw [hRec] at hy
          exact hy

/-! ## Try-body and process_job specifications -/

theorem upd_match_raised {b : Bool} {j : String} {s : Status} {e : Extra}
    {st st' : SysState} (hU : update_job_status b j s e st = (st', true)) :
    st' = st := by
  have h2 : (update_job_status b j s e st).2 = true := by rw [hU]
  have h1 := upd_raised b j s e st h2
  rw [hU] at h1
  exact h1

theorem upd_match_frame {b : Bool} {j : String} {s : Status} {e : Extra}
    {st st' : SysState} {rb : Bool}
    (hU : update_job_status b j s e st = (st', rb)) : PJFrame j st st' := by
  have hx := upd_frame b j s e st
  rwa [hU] at hx

theorem upd_match_hist {b : Bool} {j : String} {s : Status} {e : Extra}
    {st st' : SysState} {rb : Bool}
    (hU : update_job_status b j s e st = (st', rb)) :
    histOf st' j = histOf st j ∨ histOf st' j = histOf st j ++ [s] := by
  have hx := upd_hist_self b j s e st
  rwa [hU] at hx

/-- Shape of the try body's effect on job jobId: the frame holds and the
history gains processing entries, with one completed entry possible only
when the body returned successfully. -/
def BodyShape (jobId : String) (st st' : SysState) (res : Except String Unit) : Prop :=
  PJFrame jobId st st' ∧
  ∃ n term, (term = [] ∨ term = [Status.completed]) ∧
    (res.isOk = false → term = []) ∧
    histOf st' jobId = histOf st jobId ++ (List.replicate n Status.processing ++ term)

theorem bodyShape_of_procTail {jobId : String} {st st' : SysState}
    (res : Except String Unit) (h : ProcTail jobId st st') :
    BodyShape jobId st st' res := by
  obtain ⟨hF, n, hH⟩ := h
  exact ⟨hF, n, [], Or.inl rfl, fun _ => rfl, by rw [List.append_nil]; exact hH⟩

theorem procTail_hist_id {jobId : String} {st st' : SysState}
    (hF : PJFrame jobId st st') (hH : histOf st' jobId = histOf st jobId) :
    ProcTail jobId st st' :=
  ⟨hF, 0, by rw [hH]; simp⟩

theorem pjTryBody_spec (g : Gateway) (f : Faults) (cfg : Config) (now : Nat)
    (jobId : String) (job : JobRecord) (st : SysState) :
    BodyShape jobId st (pjTryBody g f cfg now jobId job st).1
      (pjTryBody g f cfg now jobId job st).2 := by
  simp only [pjTryBody]
  split
  next st1 u1 m hL =>
    refine bodyShape_of_procTail _ ?_
    have hy := optimizeLoop_spec g f jobId job.imagePaths.length job.imagePaths 0 1 st
    rw [hL] at hy
    exact hy
  next st1 u1 optimizedImages hL =>
    have hx1 : ProcTail jobId st st1 := by
      have hy := optimizeLoop_spec g f jobId job.imagePaths.length job.imagePaths 0 1 st
      rw [hL] at hy
      exact hy
    split
    next st2 hU1 =>
      exact bodyShape_of_procTail _ (procTail_trans hx1 (upd_procTail _ _ _ _ _ _ hU1))
    next st2 hU1 =>
      have hx2 : ProcTail jobId st st2 :=
        procTail_trans hx1 (upd_procTail _ _ _ _ _ _ hU1)
      split
      next st3 u3 m hL2 =>
        refine bodyShape_of_procTail _ (procTail_trans hx2 ?_)
        have hy := uploadLoop_spec g f jobId optimizedImages.length optimizedImages 0
          (u1 + 1) st2
        rw [hL2] at hy
        exact hy
      next st3 u3 imageUrls hL2 =>
        have hx3 : ProcTail jobId st st3 := by
          refine procTail_trans hx2 ?_
          have hy := uploadLoop_spec g f jobId optimizedImages.length optimizedImages 0
            (u1 + 1) st2
          rw [hL2] at hy
          exact hy
        split
        next st4 hU2 =>
          exact bodyShape_of_procTail _ (procTail_trans hx3 (upd_procTail _ _ _ _ _ _ hU2))
        next st4 hU2 =>
          have hx4 : ProcTail jobId st st4 :=
            procTail_trans hx3 (upd_procTail _ _ _ _ _ _ hU2)
          split
          next hgen => exact bodyShape_of_procTail _ hx4
          next hgen =>
            have hx4b :=
              procTail_trans hx4 (procTail_hist_id
                (pjframe_genCalls jobId st4
                  (st4.genCalls ++ [(stylePrompt job.style, imageUrls, job.aspectRatio)]))
                rfl)
            split
            next hGen => exact bodyShape_of_procTail _ hx4b
            next resultUrl restUrls hGen =>
              split
              next st5 hU3 =>
                exact bodyShape_of_procTail _
                  (procTail_trans hx4b (upd_procTail _ _ _ _ _ _ hU3))
              next st5 hU3 =>
                have hx5 : ProcTail jobId st st5 :=
                  procTail_trans hx4b (upd_procTail _ _ _ _ _ _ hU3)
                split
                next hfe => exact bodyShape_of_procTail _ hx5
                next hfe =>
                  split
                  next hsa => exact bodyShape_of_procTail _ hx5
                  next hsa =>
                    have hx6 :=
                      procTail_trans hx5
                        (procTail_hist_id (pjframe_artInsert jobId st5 now) rfl)
                    split
                    next st7 hU4 =>
                      have h1' := upd_match_raised hU4
                      subst h1'
                      exact bodyShape_of_procTail _ hx6
                    next st7 hU4 =>
                      obtain ⟨hF6, n6, hH6⟩ := hx6
                      have hFr := upd_match_frame hU4
                      have hHs := upd_match_hist hU4
                      refine ⟨pjframe_trans hF6 hFr, n6, ?_⟩
                      rcases hHs with h | h
                      · exact ⟨[], Or.inl rfl, fun _ => rfl,
                          by rw [h, hH6, List.append_nil]⟩
                      · refine ⟨[Status.completed], Or.inr rfl, ?_, ?_⟩
                        · intro hh
                          have hh2 : (Except.ok ()).isOk = false := hh
                          exact absurd hh2 (by decide)
                        · rw [h, hH6, List.append_assoc]

theorem pj_spec (g : Gateway) (f : Faults) (cfg : Config) (now : Nat) (k : String)
    (st : SysState) :
    PJFrame k st (process_job g f cfg now k st).1 ∧
    ∃ n term, (term = [] ∨ term = [Status.completed] ∨ term = [Status.failed]) ∧
      histOf (process_job g f cfg now k st).1 k =
        histOf st k ++ (List.replicate n Status.processing ++ term) := by
  simp only [process_job]
  split
  next hG => exact ⟨pjframe_rfl _ _, 0, [], Or.inl rfl, by simp⟩
  next job ttl hG =>
    split
    next st0 hU0 =>
      have h1' := upd_match_raised hU0
      subst h1'
      exact ⟨pjframe_rfl _ _, 0, [], Or.inl rfl, by simp⟩
    next st0 hU0 =>
      have hx0 : ProcTail k st st0 := upd_procTail _ _ _ _ _ _ hU0
      obtain ⟨hF0, n0, hH0⟩ := hx0
      split
      next st1 v hB =>
        have hBS := pjTryBody_spec g f cfg now k job st0
        rw [hB] at hBS
        obtain ⟨hF1, n1, term1, hterm1, _, hH1⟩ := hBS
        refine ⟨pjframe_trans hF0 (pjframe_trans hF1 (pjframe_cleanup _ _ _)),
          n0 + n1, term1, ?_, ?_⟩
        · rcases hterm1 with h | h
          · exact Or.inl h
          · exact Or.inr (Or.inl h)
        · rw [pjCleanup_hist, hH1, hH0, List.append_assoc,
            ← List.append_assoc (List.replicate n0 Status.processing),
            ← List.replicate_add]
      next st1 msg hB =>
        have hBS := pjTryBody_spec g f cfg now k job st0
        rw [hB] at hBS
        obtain ⟨hF1, n1, term1, _, hok1, hH1⟩ := hBS
        have ht1 : term1 = [] := hok1 rfl
        subst ht1
        have hF1a : PJFrame k st0 st1 := hF1
        have hH1a : histOf st1 k =
            histOf st0 k ++ (List.replicate n1 Status.processing ++ []) := hH1
        rcases hU2 : update_job_status f.failUpdRaises k Status.failed
          (failedExtra msg) st1 with ⟨st2, raised⟩
        have hFr : PJFrame k st1 st2 := upd_match_frame hU2
        have hHs : histOf st2 k = histOf st1 k ∨
            histOf st2 k = histOf st1 k ++ [Status.failed] := upd_match_hist hU2
        have hgoal : PJFrame k st (pjCleanup job.imageDir st2) ∧
            ∃ n term, (term = [] ∨ term = [Status.completed] ∨ term = [Status.failed]) ∧
              histOf (pjCleanup job.imageDir st2) k =
                histOf st k ++ (List.replicate n Status.processing ++ term) := by
          refine ⟨pjframe_trans hF0 (pjframe_trans hF1a
            (pjframe_trans hFr (pjframe_cleanup _ _ _))), n0 + n1, ?_⟩
          have hH1b : histOf st1 k = histOf st0 k ++ List.replicate n1 Status.processing := by
            simpa using hH1a
          rcases hHs with h | h
          · refine ⟨[], Or.inl rfl, ?_⟩
            rw [pjCleanup_hist, h, hH1b, hH0, List.append_assoc, ← List.replicate_add,
              List.append_nil]
          · refine ⟨[Status.failed], Or.inr (Or.inr rfl), ?_⟩
            rw [pjCleanup_hist, h, hH1b, hH0, List.append_assoc (histOf st k),
              ← List.replicate_add, List.append_assoc]
        exact hgoal

/-! ## create_job characterization -/

/-- The store-and-ghost part of the state, everything the admission path must
leave unchanged on rejection (scratch storage is excluded: a failed save may
remove a pre-existing directory of the same name). -/
def coreView (st : SysState) :=
  (st.jobs, st.queue, st.history, st.enqueuedLog, st.deliveredLog, st.artifacts,
   st.genCalls)

theorem coreView_jobs {a b : SysState} (h : coreView a = coreView b) :
    a.jobs = b.jobs := congrArg (fun t => t.1) h

theorem coreView_queue {a b : SysState} (h : coreView a = coreView b) :
    a.queue = b.queue := congrArg (fun t => t.2.1) h

theorem coreView_history {a b : SysState} (h : coreView a = coreView b) :
    a.history = b.history := congrArg (fun t => t.2.2.1) h

theorem coreView_enq {a b : SysState} (h : coreView a = coreView b) :
    a.enqueuedLog = b.enqueuedLog := congrArg (fun t => t.2.2.2.1) h

theorem coreView_dlv {a b : SysState} (h : coreView a = coreView b) :
    a.deliveredLog = b.deliveredLog := congrArg (fun t => t.2.2.2.2.1) h

theorem coreView_artifacts {a b : SysState} (h : coreView a = coreView b) :
    a.artifacts = b.artifacts := congrArg (fun t => t.2.2.2.2.2.1) h

theorem coreView_genCalls {a b : SysState} (h : coreView a = coreView b) :
    a.genCalls = b.genCalls := congrArg (fun t => t.2.2.2.2.2.2) h

theorem jobGet_eq_of_jobs {a b : SysState} (h : a.jobs = b.jobs) (j : String) :
    jobGet a j = jobGet b j := by simp [jobGet, h]

theorem histOf_eq_of_history {a b : SysState} (h : a.history = b.history)
    (j : String) : histOf a j = histOf b j := by simp [histOf, histOfL, h]

theorem saveImages_core (w : Nat → Bool) (dir : String) :
    ∀ (imgs : List String) (i : Nat) (st : SysState),
      coreView (saveImages w dir imgs i st).1 = coreView st := by
  intro imgs
  induction imgs with
  | nil => intro i st; rfl
  | cons img rest ih =>
    intro i st
    simp only [saveImages]
    split
    next hw =>
      split
      next st2 ps hrec =>
        have hy := ih (i + 1) (writeFile ⟨dir, i⟩ img st)
        rw [hrec] at hy
        exact hy
      next st2 hrec =>
        have hy := ih (i + 1) (writeFile ⟨dir, i⟩ img st)
        rw [hrec] at hy
        exact hy
    next hw => rfl

theorem create_master (cfg : Config) (w : Nat → Bool) (id : String)
    (req : JobRequest) (st : SysState) :
    ((∃ e, (create_job cfg w id req st).2 = Except.error e) ∧
      coreView (create_job cfg w id req st).1 = coreView st) ∨
    ((create_job cfg w id req st).2 = Except.ok id ∧
      ∃ st2 paths,
        coreView st2 = coreView st ∧
        (create_job cfg w id req st).1 =
          { jobSetex id
              { jobId := id, status := Status.queued, statusDetail := none,
                imagePaths := paths, imageDir := some id, style := req.style,
                aspectRatio := req.aspectRatio, imageUrl := none,
                expiresAt := none, error := none }
              (cfg.imageExpiryMinutes * 2 * 60) st2 with
            queue := id :: st2.queue,
            history := st2.history ++ [(id, Status.queued)],
            enqueuedLog := st2.enqueuedLog ++ [id] }) := by
  unfold create_job
  by_cases h1 : MAX_QUEUED_JOBS ≤ st.queue.length
  · rw [if_pos h1]
    exact Or.inl ⟨⟨_, rfl⟩, rfl⟩
  · rw [if_neg h1]
    by_cases h2 : req.images.length < MIN_IMAGES
    · rw [if_pos h2]
      exact Or.inl ⟨⟨_, rfl⟩, rfl⟩
    · rw [if_neg h2]
      by_cases h3 : MAX_IMAGES < req.images.length
      · rw [if_pos h3]
        exact Or.inl ⟨⟨_, rfl⟩, rfl⟩
      · rw [if_neg h3]
        cases hFO : firstOversize req.images 0 with
        | some i => exact Or.inl ⟨⟨_, rfl⟩, rfl⟩
        | none =>
          by_cases h4 : MAX_TOTAL_SIZE < (req.images.map String.length).sum
          · rw [if_pos h4]
            exact Or.inl ⟨⟨_, rfl⟩, rfl⟩
          · rw [if_neg h4]
            by_cases h5 : (STYLE_PRESETS.find? (fun e => e.1 == req.style)).isNone = true
            · rw [if_pos h5]
              exact Or.inl ⟨⟨_, rfl⟩, rfl⟩
            · rw [if_neg h5]
              by_cases h6 : (!(ASPECT_RATIOS.contains req.aspectRatio)) = true
              · rw [if_pos h6]
                exact Or.inl ⟨⟨_, rfl⟩, rfl⟩
              · rw [if_neg h6]
                simp only []
                rcases hSI : saveImages w id req.images 0
                    { st with scratchDirs :=
                        if st.scratchDirs.contains id then st.scratchDirs
                        else id :: st.scratchDirs } with ⟨st2, pr⟩
                have hcore : coreView st2 = coreView st := by
                  have hc := saveImages_core w id req.images 0
                    { st with scratchDirs :=
                        if st.scratchDirs.contains id then st.scratchDirs
                        else id :: st.scratchDirs }
                  rw [hSI] at hc
                  exact hc
                cases pr with
                | none => exact Or.inl ⟨⟨_, rfl⟩, hcore⟩
                | some paths => exact Or.inr ⟨rfl, st2, paths, hcore, rfl⟩

/-! ## Sweep characterization -/

/-- Everything one reaper sweep leaves untouched. -/
def ghostView (st : SysState) :=
  (st.queue, st.history, st.enqueuedLog, st.deliveredLog, st.genCalls,
   st.scratchDirs, st.scratchFiles)

theorem find?_filter_self {β : Type} (l : List (String × β)) (j : String) :
    (l.filter (fun e => e.1 != j)).find? (fun e => e.1 == j) = none := by
  rw [List.find?_eq_none]
  intro x hx
  have hne := (List.mem_filter.1 hx).2
  simp only [bne_iff_ne, ne_eq, decide_eq_true_eq] at hne
  simp [hne]

theorem jobGet_del_self (j : String) (st : SysState) :
    jobGet (jobDel j st) j = none := by
  simp [jobGet, jobDel, find?_filter_self]

theorem sweep_ghost (u d : String → Bool) (now exp : Nat) :
    ∀ (fs : List (String × Nat)) (st : SysState),
      ghostView (sweep u d now exp fs st).1 = ghostView st := by
  intro fs
  induction fs with
  | nil => intro st; rfl
  | cons f rest ih =>
    intro st
    obtain ⟨jid, mtime⟩ := f
    simp only [sweep]
    split
    next hAge =>
      split
      next hU => rfl
      next hU =>
        split
        next hD => rfl
        next hD =>
          exact ih (jobDel jid { st with
            artifacts := st.artifacts.filter (fun a => a.1 != jid) })
    next hAge => exact ih st

theorem sweep_art (u d : String → Bool) (now exp : Nat) :
    ∀ (fs : List (String × Nat)) (st : SysState) (j : String) (t : Nat),
      (j, t) ∈ (sweep u d now exp fs st).1.artifacts → (j, t) ∈ st.artifacts := by
  intro fs
  induction fs with
  | nil => intro st j t h; exact h
  | cons f rest ih =>
    intro st j t h
    obtain ⟨jid, mtime⟩ := f
    simp only [sweep] at h
    split at h
    next hAge =>
      split at h
      next hU => exact h
      next hU =>
        split at h
        next hD => exact (List.mem_filter.1 h).1
        next hD =>
          have hy := ih (jobDel jid { st with
            artifacts := st.artifacts.filter (fun a => a.1 != jid) }) j t h
          exact (List.mem_filter.1 hy).1
    next hAge => exact ih st j t h

theorem sweep_jobs (u d : String → Bool) (now exp : Nat) :
    ∀ (fs : List (String × Nat)) (st : SysState) (j : String),
      (jobGet (sweep u d now exp fs st).1 j = jobGet st j ∨
        jobGet (sweep u d now exp fs st).1 j = none) ∧
      ((∀ t, (j, t) ∉ fs) → jobGet (sweep u d now exp fs st).1 j = jobGet st j) := by
  intro fs
  induction fs with
  | nil => intro st j; exact ⟨Or.inl rfl, fun _ => rfl⟩
  | cons f rest ih =>
    intro st j
    obtain ⟨jid, mtime⟩ := f
    simp only [sweep]
    split
    next hAge =>
      split
      next hU => exact ⟨Or.inl rfl, fun _ => rfl⟩
      next hU =>
        split
        next hD => exact ⟨Or.inl rfl, fun _ => rfl⟩
        next hD =>
          have hdel : ∀ k, jobGet (jobDel jid { st with
              artifacts := st.artifacts.filter (fun a => a.1 != jid) }) k =
              jobGet st k ∨ jobGet (jobDel jid { st with
              artifacts := st.artifacts.filter (fun a => a.1 != jid) }) k = none := by
            intro k
            by_cases hk : k = jid
            · subst hk
              exact Or.inr (jobGet_del_self k _)
            · exact Or.inl (jobGet_del_ne jid _ k hk)
          constructor
          · rcases (ih (jobDel jid { st with
                artifacts := st.artifacts.filter (fun a => a.1 != jid) }) j).1 with
              h | h
            · rcases hdel j with h2 | h2
              · exact Or.inl (h.trans h2)
              · exact Or.inr (h.trans h2)
            · exact Or.inr h
          · intro hnot
            have hne : j ≠ jid := by
              intro he
              exact hnot mtime (he ▸ List.mem_cons_self _ _)
            have h1 := (ih (jobDel jid { st with
              artifacts := st.artifacts.filter (fun a => a.1 != jid) }) j).2
              (fun t ht => hnot t (List.mem_cons_of_mem _ ht))
            rw [h1, jobGet_del_ne jid _ j hne]
            exact jobGet_eq_of_jobs rfl j
    next hAge =>
      constructor
      · exact (ih st j).1
      · intro hnot
        exact (ih st j).2 (fun t ht => hnot t (List.mem_cons_of_mem _ ht))

/-! ## The reachable-state invariant -/

instance : DecidableRel stepAdmissible := fun a b =>
  inferInstanceAs (Decidable (rank a ≤ rank b ∧ isTerminal a = false))

instance (l : List Status) : Decidable (ChainOK l) :=
  inferInstanceAs (Decidable (l.Chain' stepAdmissible))

theorem chain_proc_trace (term : List Status)
    (hterm : term = [] ∨ term = [Status.completed] ∨ term = [Status.failed]) :
    ∀ n : Nat, ChainOK (Status.processing :: (List.replicate n Status.processing ++ term)) := by
  intro n
  induction n with
  | zero =>
    rcases hterm with h | h | h <;> subst h
    · exact List.chain'_singleton _
    · show ChainOK [Status.processing, Status.completed]
      exact List.chain'_pair.2 ⟨by decide, rfl⟩
    · show ChainOK [Status.processing, Status.failed]
      exact List.chain'_pair.2 ⟨by decide, rfl⟩
  | succ m ih =>
    show ChainOK (Status.processing :: Status.processing ::
      (List.replicate m Status.processing ++ term))
    exact List.chain'_cons.2 ⟨⟨Nat.le_refl _, rfl⟩, ih⟩

theorem chainOK_q_trace (n : Nat) (term : List Status)
    (hterm : term = [] ∨ term = [Status.completed] ∨ term = [Status.failed]) :
    ChainOK (Status.queued :: (List.replicate n Status.processing ++ term)) := by
  cases n with
  | zero =>
    rcases hterm with h | h | h <;> subst h
    · exact List.chain'_singleton _
    · show ChainOK [Status.queued, Status.completed]
      exact List.chain'_pair.2 ⟨by decide, rfl⟩
    · show ChainOK [Status.queued, Status.failed]
      exact List.chain'_pair.2 ⟨by decide, rfl⟩
  | succ m =>
    show ChainOK (Status.queued :: Status.processing ::
      (List.replicate m Status.processing ++ term))
    exact List.chain'_cons.2 ⟨⟨Nat.zero_le _, rfl⟩, chain_proc_trace term hterm m⟩

theorem histOfL_eq_nil {h : List (String × Status)} {j : String}
    (hall : ∀ e ∈ h, e.1 ≠ j) : histOfL h j = [] := by
  have hf : h.filter (fun e => e.1 == j) = [] := by
    rw [List.filter_eq_nil_iff]
    intro a ha
    simp [hall a ha]
  rw [histOfL, hf]
  rfl

theorem freshB_spec {st : SysState} {j : String} (h : freshB st j = true) :
    jobGet st j = none ∧ j ∉ st.enqueuedLog ∧ histOf st j = [] ∧
    (∀ t, (j, t) ∉ st.artifacts) ∧ j ∉ st.queue := by
  simp only [freshB, Bool.and_eq_true] at h
  obtain ⟨⟨⟨⟨h1, h2⟩, h3⟩, h4⟩, h5⟩ := h
  refine ⟨?_, ?_, ?_, ?_, ?_⟩
  · exact Option.isNone_iff_eq_none.1 h1
  · intro hm
    rw [Bool.not_eq_true'] at h2
    exact absurd hm (by simpa using h2)
  · refine histOfL_eq_nil ?_
    intro e he
    have := List.all_eq_true.1 h3 e he
    simpa using this
  · intro t hm
    have := List.all_eq_true.1 h4 (j, t) hm
    simp at this
  · intro hm
    rw [Bool.not_eq_true'] at h5
    exact absurd hm (by simpa using h5)

/-- The invariant all reachable system states satisfy: histories are
monotone chains starting at queued, queued jobs are exactly the untouched
ones, the queue has no duplicates, and the ghost logs satisfy the queue
refinement equation. -/
structure Inv (st : SysState) : Prop where
  chain : ∀ j, ChainOK (histOf st j)
  headQ : ∀ j, histOf st j = [] ∨ (histOf st j).head? = some Status.queued
  qFresh : ∀ j, j ∈ st.queue →
    histOf st j = [Status.queued] ∧ jobStatus st j = some Status.queued ∧
    ∀ t, (j, t) ∉ st.artifacts
  qNodup : st.queue.Nodup
  logEq : st.enqueuedLog = st.deliveredLog ++ st.queue.reverse
  enqNd : st.enqueuedLog.Nodup
  histEnq : ∀ j, histOf st j ≠ [] → j ∈ st.enqueuedLog
  recHist : ∀ j, jobGet st j ≠ none → histOf st j ≠ []

theorem inv_init : Inv initState := by
  refine ⟨?_, ?_, ?_, ?_, ?_, ?_, ?_, ?_⟩
  · intro j
    exact List.chain'_nil
  · intro j
    exact Or.inl rfl
  · intro j hj
    cases hj
  · exact List.nodup_nil
  · rfl
  · exact List.nodup_nil
  · intro j hj
    exact absurd rfl hj
  · intro j hj
    exact absurd rfl hj

theorem mem_enq_of_mem_queue {st : SysState} (hInv : Inv st) {j : String}
    (hj : j ∈ st.queue) : j ∈ st.enqueuedLog := by
  rw [hInv.logEq]
  exact List.mem_append_right _ (List.mem_reverse.2 hj)

theorem inv_of_coreView {a b : SysState} (h : coreView b = coreView a)
    (hi : Inv a) : Inv b := by
  have hj := coreView_jobs h
  have hq := coreView_queue h
  have hh := coreView_history h
  have he := coreView_enq h
  have hd := coreView_dlv h
  have ha := coreView_artifacts h
  have hhist : ∀ j, histOf b j = histOf a j := fun j => histOf_eq_of_history hh j
  have hget : ∀ j, jobGet b j = jobGet a j := fun j => jobGet_eq_of_jobs hj j
  refine ⟨?_, ?_, ?_, ?_, ?_, ?_, ?_, ?_⟩
  · intro j
    rw [hhist j]
    exact hi.chain j
  · intro j
    rw [hhist j]
    exact hi.headQ j
  · intro j hjq
    rw [hq] at hjq
    obtain ⟨x1, x2, x3⟩ := hi.qFresh j hjq
    exact ⟨(hhist j).trans x1, by rw [jobStatus, hget j]; exact x2,
      fun t => by rw [ha]; exact x3 t⟩
  · rw [hq]; exact hi.qNodup
  · rw [he, hd, hq]; exact hi.logEq
  · rw [he]; exact hi.enqNd
  · intro j hj
    rw [he]
    exact hi.histEnq j (by rw [← hhist j]; exact hj)
  · intro j hj
    rw [hhist j]
    exact hi.recHist j (by rw [← hget j]; exact hj)

theorem inv_submit_ok (st st2 : SysState) (id : String) (rec : JobRecord)
    (ttl : Nat) (hInv : Inv st)
    (hcore : coreView st2 = coreView st)
    (hrecS : rec.status = Status.queued)
    (hg0 : jobGet st id = none) (henq0 : id ∉ st.enqueuedLog)
    (hh0 : histOf st id = []) (hart0 : ∀ t, (id, t) ∉ st.artifacts)
    (hq0 : id ∉ st.queue) :
    Inv { jobSetex id rec ttl st2 with
          queue := id :: st2.queue,
          history := st2.history ++ [(id, Status.queued)],
          enqueuedLog := st2.enqueuedLog ++ [id] } := by
  have hjobs2 := coreView_jobs hcore
  have hq2 := coreView_queue hcore
  have hh2 := coreView_history hcore
  have he2 := coreView_enq hcore
  have hd2 := coreView_dlv hcore
  have ha2 := coreView_artifacts hcore
  have histL : ∀ j, histOf { jobSetex id rec ttl st2 with
      queue := id :: st2.queue,
      history := st2.history ++ [(id, Status.queued)],
      enqueuedLog := st2.enqueuedLog ++ [id] } j =
      histOf st j ++ histOfL [(id, Status.queued)] j := by
    intro j
    show histOfL (st2.history ++ [(id, Status.queued)]) j = _
    rw [histOfL_append]
    congr 1
    exact histOf_eq_of_history hh2 j
  have histL_id : histOf { jobSetex id rec ttl st2 with
      queue := id :: st2.queue,
      history := st2.history ++ [(id, Status.queued)],
      enqueuedLog := st2.enqueuedLog ++ [id] } id = [Status.queued] := by
    rw [histL, hh0, histOfL_single_self]
    rfl
  have histL_ne : ∀ j, j ≠ id → histOf { jobSetex id rec ttl st2 with
      queue := id :: st2.queue,
      history := st2.history ++ [(id, Status.queued)],
      enqueuedLog := st2.enqueuedLog ++ [id] } j = histOf st j := by
    intro j hj
    rw [histL, histOfL_single_ne _ _ _ hj, List.append_nil]
  have getL_id : jobGet { jobSetex id rec ttl st2 with
      queue := id :: st2.queue,
      history := st2.history ++ [(id, Status.queued)],
      enqueuedLog := st2.enqueuedLog ++ [id] } id = some (rec, some ttl) := by
    show jobGet (jobSetex id rec ttl st2) id = _
    exact jobGet_setex_self id rec ttl st2
  have getL_ne : ∀ j, j ≠ id → jobGet { jobSetex id rec ttl st2 with
      queue := id :: st2.queue,
      history := st2.history ++ [(id, Status.queued)],
      enqueuedLog := st2.enqueuedLog ++ [id] } j = jobGet st j := by
    intro j hj
    show jobGet (jobSetex id rec ttl st2) j = _
    rw [jobGet_setex_ne id rec ttl st2 j hj]
    exact jobGet_eq_of_jobs hjobs2 j
  refine ⟨?_, ?_, ?_, ?_, ?_, ?_, ?_, ?_⟩
  · intro j
    by_cases hj : j = id
    · subst hj
      rw [histL_id]
      exact List.chain'_singleton _
    · rw [histL_ne j hj]
      exact hInv.chain j
  · intro j
    by_cases hj : j = id
    · subst hj
      rw [histL_id]
      exact Or.inr rfl
    · rw [histL_ne j hj]
      exact hInv.headQ j
  · intro j hjq
    rcases List.mem_cons.1 hjq with he | hm
    · subst he
      refine ⟨histL_id, ?_, ?_⟩
      · rw [jobStatus, getL_id]
        simp [hrecS]
      · intro t hmem
        have : (j, t) ∈ st2.artifacts := hmem
        rw [ha2] at this
        exact hart0 t this
    · rw [hq2] at hm
      have hj : j ≠ id := fun he => hq0 (he ▸ hm)
      obtain ⟨x1, x2, x3⟩ := hInv.qFresh j hm
      refine ⟨(histL_ne j hj).trans x1, ?_, ?_⟩
      · rw [jobStatus, getL_ne j hj]
        exact x2
      · intro t hmem
        have : (j, t) ∈ st2.artifacts := hmem
        rw [ha2] at this
        exact x3 t this
  · show (id :: st2.queue).Nodup
    rw [hq2]
    exact List.nodup_cons.2 ⟨hq0, hInv.qNodup⟩
  · show st2.enqueuedLog ++ [id] = st2.deliveredLog ++ (id :: st2.queue).reverse
    rw [he2, hd2, hq2, hInv.logEq, List.reverse_cons id st.queue, List.append_assoc]
  · show (st2.enqueuedLog ++ [id]).Nodup
    rw [he2]
    refine List.nodup_append.2 ⟨hInv.enqNd, by simp, ?_⟩
    intro x hx hxid
    rw [List.mem_singleton] at hxid
    exact absurd (hxid ▸ hx) henq0
  · intro j hj
    show j ∈ st2.enqueuedLog ++ [id]
    by_cases hje : j = id
    · subst hje
      exact List.mem_append_right _ (List.mem_singleton_self j)
    · rw [histL_ne j hje] at hj
      rw [he2]
      exact List.mem_append_left _ (hInv.histEnq j hj)
  · intro j hj
    by_cases hje : j = id
    · subst hje
      rw [histL_id]
      simp
    · rw [histL_ne j hje]
      rw [getL_ne j hje] at hj
      exact hInv.recHist j hj

theorem inv_dequeue {st : SysState} (hInv : Inv st) {k : String}
    (hql : st.queue.getLast? = some k) :
    Inv { st with
      queue := st.queue.dropLast,
      deliveredLog := st.deliveredLog ++ [k] } := by
  refine ⟨hInv.chain, hInv.headQ, ?_, ?_, ?_, hInv.enqNd, hInv.histEnq, hInv.recHist⟩
  · intro j hj
    exact hInv.qFresh j (List.dropLast_subset st.queue hj)
  · exact nodup_dropLast_of_nodup hInv.qNodup
  · show st.enqueuedLog = (st.deliveredLog ++ [k]) ++ st.queue.dropLast.reverse
    have hq := dropLast_concat_getLast? hql
    calc st.enqueuedLog = st.deliveredLog ++ st.queue.reverse := hInv.logEq
      _ = st.deliveredLog ++ (st.queue.dropLast ++ [k]).reverse := by rw [hq]
      _ = st.deliveredLog ++ ([k].reverse ++ st.queue.dropLast.reverse) := by
            rw [List.reverse_append]
      _ = (st.deliveredLog ++ [k]) ++ st.queue.dropLast.reverse := by
            rw [← List.append_assoc]
            rfl

theorem inv_step (cfg : Config) (st : SysState) (op : SysOp) (hInv : Inv st)
    (hOK : opOK st op = true) : Inv (step cfg st op) := by
  cases op with
  | submit w id req =>
    have hfr := @freshB_spec st id (by simpa [opOK] using hOK)
    obtain ⟨hg0, henq0, hh0, hart0, hq0⟩ := hfr
    show Inv (create_job cfg w id req st).1
    rcases create_master cfg w id req st with ⟨⟨e, _⟩, hcore⟩ |
      ⟨hok2, st2, paths, hcore, hshape⟩
    · exact inv_of_coreView hcore hInv
    · rw [hshape]
      exact inv_submit_ok st st2 id _ _ hInv hcore rfl hg0 henq0 hh0 hart0 hq0
  | worker g f now sh =>
    show Inv (workerIteration g f cfg now sh st)
    simp only [workerIteration]
    cases hql : st.queue.getLast? with
    | none => exact hInv
    | some k =>
      have hInv1 := inv_dequeue hInv hql
      have hkq : k ∈ st.queue := mem_of_getLast? hql
      have hknd : k ∉ st.queue.dropLast := not_mem_dropLast_of_nodup hInv.qNodup hql
      obtain ⟨hqk1, hqk2, hqk3⟩ := hInv.qFresh k hkq
      cases sh with
      | true => exact hInv1
      | false =>
        show Inv (process_job g f cfg now k
          { st with
            queue := st.queue.dropLast,
            deliveredLog := st.deliveredLog ++ [k] }).1
        obtain ⟨hFr, n, term, hterm, hHk⟩ := pj_spec g f cfg now k
          { st with
            queue := st.queue.dropLast,
            deliveredLog := st.deliveredLog ++ [k] }
        have h1k : histOf { st with
            queue := st.queue.dropLast,
            deliveredLog := st.deliveredLog ++ [k] } k = [Status.queued] := hqk1
        refine ⟨?_, ?_, ?_, ?_, ?_, ?_, ?_, ?_⟩
        · intro j
          by_cases hj : j = k
          · subst hj
            rw [hHk, h1k]
            exact chainOK_q_trace n term hterm
          · rw [hFr.histNe j hj]
            exact hInv.chain j
        · intro j
          by_cases hj : j = k
          · subst hj
            rw [hHk, h1k]
            exact Or.inr rfl
          · rw [hFr.histNe j hj]
            exact hInv.headQ j
        · intro j hj
          rw [hFr.queueEq] at hj
          have hjq : j ∈ st.queue := List.dropLast_subset st.queue hj
          have hjk : j ≠ k := fun he => hknd (he ▸ hj)
          obtain ⟨x1, x2, x3⟩ := hInv.qFresh j hjq
          refine ⟨(hFr.histNe j hjk).trans x1, ?_, ?_⟩
          · rw [jobStatus, hFr.jobsNe j hjk]
            exact x2
          · intro t hmem
            have := (hFr.artNe j t hjk).1 hmem
            exact x3 t this
        · rw [hFr.queueEq]
          exact nodup_dropLast_of_nodup hInv.qNodup
        · rw [hFr.enqEq, hFr.dlvEq, hFr.queueEq]
          exact hInv1.logEq
        · rw [hFr.enqEq]
          exact hInv.enqNd
        · intro j hj
          rw [hFr.enqEq]
          by_cases hjk : j = k
          · subst hjk
            exact mem_enq_of_mem_queue hInv hkq
          · rw [hFr.histNe j hjk] at hj
            exact hInv.histEnq j hj
        · intro j hj
          by_cases hjk : j = k
          · subst hjk
            rw [hHk, h1k]
            simp
          · rw [hFr.histNe j hjk]
            rw [hFr.jobsNe j hjk] at hj
            exact hInv.recHist j hj
  | reap u d now =>
    show Inv (cleanup_expired_images u d now cfg st)
    have hg := sweep_ghost u d now (cfg.imageExpiryMinutes * 60) st.artifacts st
    have hque : (cleanup_expired_images u d now cfg st).queue = st.queue :=
      congrArg (fun t => t.1) hg
    have hhis : (cleanup_expired_images u d now cfg st).history = st.history :=
      congrArg (fun t => t.2.1) hg
    have henq : (cleanup_expired_images u d now cfg st).enqueuedLog = st.enqueuedLog :=
      congrArg (fun t => t.2.2.1) hg
    have hdlv : (cleanup_expired_images u d now cfg st).deliveredLog = st.deliveredLog :=
      congrArg (fun t => t.2.2.2.1) hg
    have hhist : ∀ j, histOf (cleanup_expired_images u d now cfg st) j = histOf st j :=
      fun j => histOf_eq_of_history hhis j
    refine ⟨?_, ?_, ?_, ?_, ?_, ?_, ?_, ?_⟩
    · intro j
      rw [hhist j]
      exact hInv.chain j
    · intro j
      rw [hhist j]
      exact hInv.headQ j
    · intro j hj
      rw [hque] at hj
      obtain ⟨x1, x2, x3⟩ := hInv.qFresh j hj
      have hget : jobGet (cleanup_expired_images u d now cfg st) j = jobGet st j :=
        (sweep_jobs u d now (cfg.imageExpiryMinutes * 60) st.artifacts st j).2 x3
      refine ⟨(hhist j).trans x1, ?_, ?_⟩
      · rw [jobStatus, hget]
        exact x2
      · intro t hmem
        exact x3 t (sweep_art u d now (cfg.imageExpiryMinutes * 60) st.artifacts st j t hmem)
    · rw [hque]
      exact hInv.qNodup
    · rw [henq, hdlv, hque]
      exact hInv.logEq
    · rw [henq]
      exact hInv.enqNd
    · intro j hj
      rw [henq]
      rw [hhist j] at hj
      exact hInv.histEnq j hj
    · intro j hj
      rw [hhist j]
      rcases (sweep_jobs u d now (cfg.imageExpiryMinutes * 60) st.artifacts st j).1 with
        h | h
      · have : jobGet st j ≠ none := by rw [← h]; exact hj
        exact hInv.recHist j this
      · exact absurd h hj

theorem inv_run (cfg : Config) : ∀ (ops : List SysOp) (st : SysState), Inv st →
    runOK cfg st ops = true → Inv (run cfg st ops) := by
  intro ops
  induction ops with
  | nil =>
    intro st h _
    exact h
  | cons op rest ih =>
    intro st h hok
    simp only [runOK, Bool.and_eq_true] at hok
    exact ih (step cfg st op) (inv_step cfg st op h hok.1) hok.2

/-! ## A discarded job stays queued -/

/-- A job id whose record still says queued although the id is no longer in
the queue: nothing in the system will ever touch it again. -/
def Stuck (st : SysState) (j : String) : Prop :=
  jobStatus st j = some Status.queued ∧ j ∉ st.queue ∧ j ∈ st.enqueuedLog ∧
  ∀ t, (j, t) ∉ st.artifacts

theorem stuck_of_coreView {a b : SysState} (h : coreView b = coreView a)
    {j : String} (hS : Stuck a j) : Stuck b j := by
  obtain ⟨hst, hq, he, ha⟩ := hS
  refine ⟨?_, ?_, ?_, ?_⟩
  · rw [jobStatus, jobGet_eq_of_jobs (coreView_jobs h) j]
    exact hst
  · rw [coreView_queue h]
    exact hq
  · rw [coreView_enq h]
    exact he
  · intro t hm
    rw [coreView_artifacts h] at hm
    exact ha t hm

theorem stuck_submit_ok (st st2 : SysState) (id j : String) (rec : JobRecord)
    (ttl : Nat) (hcore : coreView st2 = coreView st) (hne : id ≠ j)
    (hst : jobStatus st j = some Status.queued) (hq : j ∉ st.queue)
    (he : j ∈ st.enqueuedLog) (ha : ∀ t, (j, t) ∉ st.artifacts) :
    Stuck { jobSetex id rec ttl st2 with
            queue := id :: st2.queue,
            history := st2.history ++ [(id, Status.queued)],
            enqueuedLog := st2.enqueuedLog ++ [id] } j := by
  have hjne : j ≠ id := fun hEq => hne hEq.symm
  refine ⟨?_, ?_, ?_, ?_⟩
  · show ((jobGet (jobSetex id rec ttl st2) j).map (fun p => p.1.status)) = _
    rw [jobGet_setex_ne id rec ttl st2 j hjne,
      jobGet_eq_of_jobs (coreView_jobs hcore) j]
    exact hst
  · intro hm
    rcases List.mem_cons.1 hm with hEq | hm2
    · exact hjne hEq
    · rw [coreView_queue hcore] at hm2
      exact hq hm2
  · show j ∈ st2.enqueuedLog ++ [id]
    rw [coreView_enq hcore]
    exact List.mem_append_left _ he
  · intro t hm
    have : (j, t) ∈ st2.artifacts := hm
    rw [coreView_artifacts hcore] at this
    exact ha t this

theorem stuck_step (cfg : Config) (st : SysState) (op : SysOp) (j : String)
    (hS : Stuck st j) (hOK : opOK st op = true) : Stuck (step cfg st op) j := by
  obtain ⟨hst, hq, he, ha⟩ := hS
  cases op with
  | submit w id req =>
    have hfr := @freshB_spec st id (by simpa [opOK] using hOK)
    obtain ⟨_, henq0, _, _, _⟩ := hfr
    have hne : id ≠ j := fun hEq => henq0 (hEq ▸ he)
    show Stuck (create_job cfg w id req st).1 j
    rcases create_master cfg w id req st with ⟨_, hcore⟩ |
      ⟨_, st2, paths, hcore, hshape⟩
    · exact stuck_of_coreView hcore ⟨hst, hq, he, ha⟩
    · rw [hshape]
      exact stuck_submit_ok st st2 id j _ _ hcore hne hst hq he ha
  | worker g f now sh =>
    show Stuck (workerIteration g f cfg now sh st) j
    simp only [workerIteration]
    cases hql : st.queue.getLast? with
    | none => exact ⟨hst, hq, he, ha⟩
    | some k =>
      have hkq : k ∈ st.queue := mem_of_getLast? hql
      have hkj : k ≠ j := fun hEq => hq (hEq ▸ hkq)
      have hjk : j ≠ k := fun hEq => hkj hEq.symm
      cases sh with
      | true =>
        refine ⟨hst, ?_, ?_, ha⟩
        · intro hm
          exact hq (List.dropLast_subset st.queue hm)
        · exact he
      | false =>
        show Stuck (process_job g f cfg now k
          { st with
            queue := st.queue.dropLast,
            deliveredLog := st.deliveredLog ++ [k] }).1 j
        obtain ⟨hFr, _, _, _, _⟩ := pj_spec g f cfg now k
          { st with
            queue := st.queue.dropLast,
            deliveredLog := st.deliveredLog ++ [k] }
        refine ⟨?_, ?_, ?_, ?_⟩
        · rw [jobStatus, hFr.jobsNe j hjk]
          exact hst
        · rw [hFr.queueEq]
          intro hm
          exact hq (List.dropLast_subset st.queue hm)
        · rw [hFr.enqEq]
          exact he
        · intro t hm
          have := (hFr.artNe j t hjk).1 hm
          exact ha t this
  | reap u d now =>
    show Stuck (cleanup_expired_images u d now cfg st) j
    have hg := sweep_ghost u d now (cfg.imageExpiryMinutes * 60) st.artifacts st
    refine ⟨?_, ?_, ?_, ?_⟩
    · have hgj : jobGet (cleanup_expired_images u d now cfg st) j = jobGet st j :=
        (sweep_jobs u d now (cfg.imageExpiryMinutes * 60) st.artifacts st j).2 ha
      rw [jobStatus, hgj]
      exact hst
    · rw [show (cleanup_expired_images u d now cfg st).queue = st.queue from
        congrArg (fun t => t.1) hg]
      exact hq
    · rw [show (cleanup_expired_images u d now cfg st).enqueuedLog = st.enqueuedLog from
        congrArg (fun t => t.2.2.1) hg]
      exact he
    · intro t hm
      exact ha t (sweep_art u d now (cfg.imageExpiryMinutes * 60) st.artifacts st j t hm)

theorem stuck_run (cfg : Config) : ∀ (ops : List SysOp) (st : SysState) (j : String),
    Stuck st j → runOK cfg st ops = true → Stuck (run cfg st ops) j := by
  intro ops
  induction ops with
  | nil =>
    intro st j h _
    exact h
  | cons op rest ih =>
    intro st j h hok
    simp only [runOK, Bool.and_eq_true] at hok
    exact ih (step cfg st op) j (stuck_step cfg st op j h hok.1) hok.2

/-! ## Resize arithmetic -/

theorem optimizeFlatten_width (img : PImage) :
    (optimizeFlatten img).width = img.width := by
  rcases img with ⟨m, w, h, px, pal⟩
  cases m <;> rfl

theorem optimizeFlatten_height (img : PImage) :
    (optimizeFlatten img).height = img.height := by
  rcases img with ⟨m, w, h, px, pal⟩
  cases m <;> rfl

theorem resizeImage_dims (rs : PImage → Nat → Nat → List Pix) (img : PImage) :
    ((resizeImage rs img).width, (resizeImage rs img).height) =
      resizeDims img.width img.height := by
  by_cases hme : OPTIMIZE_MAX_SIZE < max img.width img.height
  · simp only [resizeImage, resizeDims, if_pos hme]
  · simp only [resizeImage, resizeDims, if_neg hme]

theorem resizeDims_le (w h : Nat) :
    (resizeDims w h).1 ≤ w ∧ (resizeDims w h).2 ≤ h := by
  simp only [resizeDims]
  split
  next hm =>
    have hmpos : 0 < max w h := Nat.lt_of_le_of_lt (Nat.zero_le _) hm
    constructor
    · calc w * OPTIMIZE_MAX_SIZE / max w h
          ≤ w * max w h / max w h :=
            Nat.div_le_div_right (Nat.mul_le_mul_left w (Nat.le_of_lt hm))
        _ = w := by
            rw [Nat.mul_comm]
            exact Nat.mul_div_cancel_left w hmpos
    · calc h * OPTIMIZE_MAX_SIZE / max w h
          ≤ h * max w h / max w h :=
            Nat.div_le_div_right (Nat.mul_le_mul_left h (Nat.le_of_lt hm))
        _ = h := by
            rw [Nat.mul_comm]
            exact Nat.mul_div_cancel_left h hmpos
  next hm => exact ⟨Nat.le_refl w, Nat.le_refl h⟩

theorem resizeDims_max_le (w h : Nat) :
    max (resizeDims w h).1 (resizeDims w h).2 ≤ OPTIMIZE_MAX_SIZE := by
  simp only [resizeDims]
  split
  next hm =>
    have hmpos : 0 < max w h := Nat.lt_of_le_of_lt (Nat.zero_le _) hm
    have hw : w * OPTIMIZE_MAX_SIZE / max w h ≤ OPTIMIZE_MAX_SIZE := by
      calc w * OPTIMIZE_MAX_SIZE / max w h
          ≤ max w h * OPTIMIZE_MAX_SIZE / max w h :=
            Nat.div_le_div_right (Nat.mul_le_mul_right _ (le_max_left w h))
        _ = OPTIMIZE_MAX_SIZE := Nat.mul_div_cancel_left OPTIMIZE_MAX_SIZE hmpos
    have hh : h * OPTIMIZE_MAX_SIZE / max w h ≤ OPTIMIZE_MAX_SIZE := by
      calc h * OPTIMIZE_MAX_SIZE / max w h
          ≤ max w h * OPTIMIZE_MAX_SIZE / max w h :=
            Nat.div_le_div_right (Nat.mul_le_mul_right _ (le_max_right w h))
        _ = OPTIMIZE_MAX_SIZE := Nat.mul_div_cancel_left OPTIMIZE_MAX_SIZE hmpos
    exact max_le hw hh
  next hm => exact Nat.le_of_not_lt hm

theorem resizeDims_small (w h : Nat) (hs : max w h ≤ OPTIMIZE_MAX_SIZE) :
    resizeDims w h = (w, h) := by
  unfold resizeDims
  rw [if_neg (Nat.not_lt.2 hs)]

theorem resizeDims_ratio (w h : Nat) :
    ∃ a b, 0 < b ∧ (resizeDims w h).1 = w * a / b ∧ (resizeDims w h).2 = h * a / b := by
  by_cases hm : OPTIMIZE_MAX_SIZE < max w h
  · refine ⟨OPTIMIZE_MAX_SIZE, max w h, Nat.lt_of_le_of_lt (Nat.zero_le _) hm, ?_, ?_⟩ <;>
      · simp only [resizeDims]
        rw [if_pos hm]
  · refine ⟨1, 1, Nat.one_pos, ?_, ?_⟩ <;>
      · simp only [resizeDims]
        rw [if_neg hm]
        simp

/-! ## Concrete fixtures used by the claim witnesses and counterexamples -/

def cfg0 : Config := {}

def gConst (im : PImage) : Gateway :=
  { b64decode := fun s => s, decodePix := fun _ => some im, exifT := fun p => p,
    resample := fun p _ _ => p.pix, jpegEncode := fun _ => "jpegbytes",
    upload := fun s => "url-" ++ s, generate := fun _ _ _ => ["result-url"],
    fetch := fun s => s }

def laImg : PImage := ⟨.LA, 1, 1, [.la 0 0], []⟩
def rgbaImg : PImage := ⟨.RGBA, 1, 1, [.rgba 0 0 0 0], []⟩
def rgbBlack : PImage := ⟨.RGB, 1, 1, [.rgb 0 0 0], []⟩
def rgbWhite : PImage := ⟨.RGB, 1, 1, [.rgb 255 255 255], []⟩
def bigImg : PImage := ⟨.RGB, 2000, 1000, [], []⟩

def req0 : JobRequest := { images := ["aaa", "bbb"] }

def jobC2 : JobRecord :=
  { jobId := "j", status := .queued, statusDetail := none,
    imagePaths := [⟨"j", 0⟩], imageDir := some "j", style := "fridge",
    aspectRatio := "16:9", imageUrl := none, expiresAt := none, error := none }

def stC2 : SysState :=
  { initState with
    jobs := [("j", jobC2, some 3600)],
    scratchDirs := ["j"],
    scratchFiles := [(⟨"j", 0⟩, "imagedata")] }

def faultsUpd : Faults := { noFaults with updateRaises := fun _ => true }

def jobA : JobRecord := { jobId := "a", status := .completed }
def jobB : JobRecord := { jobId := "b", status := .completed }

def stC3 : SysState :=
  { initState with
    artifacts := [("a", 0), ("b", 0)],
    jobs := [("a", jobA, none), ("b", jobB, none)] }

/-! ## Helper lemmas specific to single claims -/

theorem jobTTL_setex_self (j : String) (r : JobRecord) (ttl : Nat) (st : SysState) :
    jobTTL (jobSetex j r ttl st) j = some (some ttl) := by
  rw [jobTTL, jobGet_setex_self]
  rfl

theorem jobTTL_submit_ok (cfg : Config) (w : Nat → Bool) (i : String)
    (req : JobRequest) (st : SysState)
    (h1 : (create_job cfg w i req st).2 = Except.ok i) :
    jobTTL (create_job cfg w i req st).1 i =
      some (some (cfg.imageExpiryMinutes * 2 * 60)) := by
  rcases create_master cfg w i req st with ⟨⟨e2, he2⟩, _⟩ |
    ⟨_, st2, paths, hcore, hshape⟩
  · rw [h1] at he2
    exact absurd he2 (by simp)
  · rw [hshape]
    exact jobTTL_setex_self i _ (cfg.imageExpiryMinutes * 2 * 60) st2

theorem sweep_abort (u d : String → Bool) (nowT exp : Nat) (x : String × Nat)
    (hx : u x.1 = true) (hexp : exp < nowT - x.2) (fs2 : List (String × Nat)) :
    ∀ (fs1 : List (String × Nat)) (st : SysState),
      (∀ q ∈ fs1, u q.1 = false ∧ d q.1 = false) →
      sweep u d nowT exp (fs1 ++ x :: fs2) st =
        ((sweep u d nowT exp fs1 st).1, false) := by
  obtain ⟨xj, xt⟩ := x
  intro fs1
  induction fs1 with
  | nil =>
    intro st _
    show sweep u d nowT exp ((xj, xt) :: fs2) st = _
    simp only [sweep]
    rw [if_pos hexp, if_pos hx]
  | cons q rest ih =>
    intro st hq
    obtain ⟨qj, qt⟩ := q
    obtain ⟨hqu, hqd⟩ := hq (qj, qt) (List.mem_cons_self _ _)
    show sweep u d nowT exp ((qj, qt) :: (rest ++ (xj, xt) :: fs2)) st = _
    simp only [sweep]
    by_cases hage : exp < nowT - qt
    · rw [if_pos hage, if_neg (by simp [hqu]), if_neg (by simp [hqd]),
        if_pos hage, if_neg (by simp [hqu]), if_neg (by simp [hqd])]
      exact ih _ (fun r hr => hq r (List.mem_cons_of_mem _ hr))
    · rw [if_neg hage, if_neg hage]
      exact ih st (fun r hr => hq r (List.mem_cons_of_mem _ hr))

def palImg : PImage := ⟨.P, 1, 1, [.pal 0], [(10, 20, 30, 0)]⟩

def reqBadStyle : JobRequest := { images := ["aaa", "bbb"], style := "mosaic" }

/-! ## The claims -/

/-- C1: counterexample.  create_job stores the record with SETEX and
TTL = 30 * 2 * 60 = 3600 s, but the worker's very first status update
rewrites the record with a plain SET, which discards the TTL: the record's
storage TTL is not preserved by subsequent updates. -/
theorem C1_update_drops_ttl_counterexample :
    jobTTL (create_job cfg0 (fun _ => true) "j" req0 initState).1 "j" =
      some (some 3600) ∧
    jobTTL (update_job_status false "j" Status.processing
        (progressExtra "Optimizing images...")
        (create_job cfg0 (fun _ => true) "j" req0 initState).1).1 "j" =
      some none := by
  refine ⟨?_, ?_⟩ <;> decide

/-- C1: amended.  create_job persists the record with
TTL = imageExpiryMinutes * 2 * 60 seconds, but every subsequent successful
update_job_status rewrites the record with a TTL-less plain SET, so after the
first worker update the record has no expiry at all (it persists until the
reaper deletes it) rather than keeping the original TTL. -/
theorem C1_ttl_amended (cfg : Config) (w : Nat → Bool) (i : String)
    (req : JobRequest) (st st2 : SysState) (j : String) (s : Status) (e : Extra)
    (h1 : (create_job cfg w i req st).2 = Except.ok i)
    (h2 : jobGet st2 j ≠ none) :
    jobTTL (create_job cfg w i req st).1 i =
      some (some (cfg.imageExpiryMinutes * 2 * 60)) ∧
    jobTTL (update_job_status false j s e st2).1 j = some none :=
  ⟨jobTTL_submit_ok cfg w i req st h1, upd_ttl_none j s e st2 h2⟩

theorem C1_ttl_amended_witness :
    (create_job cfg0 (fun _ => true) "j" req0 initState).2 = Except.ok "j" ∧
    jobGet stC2 "j" ≠ none ∧
    (jobTTL (create_job cfg0 (fun _ => true) "j" req0 initState).1 "j" =
        some (some (cfg0.imageExpiryMinutes * 2 * 60)) ∧
      jobTTL (update_job_status false "j" Status.processing
          (progressExtra "x") stC2).1 "j" = some none) :=
  ⟨by decide, by decide,
    C1_ttl_amended cfg0 (fun _ => true) "j" req0 initState stC2 "j"
      Status.processing (progressExtra "x") (by decide) (by decide)⟩

/-- C2: code bug.  The transition to processing (worker.py line 127) sits
before the try block, so a store exception raised by that update escapes
process_job without running the except handler or the finally cleanup: the
exception propagates (flag true), the scratch directory and its file survive,
and the record is still queued, never marked failed. -/
theorem C2_pre_try_update_skips_cleanup :
    process_job (gConst laImg) faultsUpd cfg0 0 "j" stC2 = (stC2, true) ∧
    "j" ∈ (process_job (gConst laImg) faultsUpd cfg0 0 "j" stC2).1.scratchDirs ∧
    readFile (process_job (gConst laImg) faultsUpd cfg0 0 "j" stC2).1 ⟨"j", 0⟩ =
      some "imagedata" ∧
    jobStatus (process_job (gConst laImg) faultsUpd cfg0 0 "j" stC2).1 "j" =
      some Status.queued := by
  refine ⟨?_, ?_, ?_, ?_⟩ <;> decide

/-- C3: counterexample.  One try block wraps the whole reaper loop, so an
error while unlinking the first expired artifact aborts the entire sweep:
the state is returned unchanged and the second artifact, although aged past
the expiry window, survives together with its record. -/
theorem C3_sweep_abort_counterexample :
    cleanup_expired_images (fun s => s == "a") (fun _ => false) 100000 cfg0 stC3 =
      stC3 ∧
    cfg0.imageExpiryMinutes * 60 < 100000 - 0 ∧
    ("b", 0) ∈ (cleanup_expired_images (fun s => s == "a") (fun _ => false)
      100000 cfg0 stC3).artifacts ∧
    jobGet (cleanup_expired_images (fun s => s == "a") (fun _ => false)
      100000 cfg0 stC3) "b" = some (jobB, none) := by
  refine ⟨?_, ?_, ?_, ?_⟩ <;> decide

/-- C3: amended.  The try block of cleanup_expired_images wraps the whole
loop, so the first artifact whose handling raises aborts the remainder of
that sweep: artifacts listed before the offender are handled, and every
artifact after it — however old — is left for a later sweep. -/
theorem C3_sweep_abort_amended (u d : String → Bool) (nowT : Nat) (cfg : Config)
    (st : SysState) (fs1 fs2 : List (String × Nat)) (x : String × Nat)
    (hsplit : st.artifacts = fs1 ++ x :: fs2)
    (h1 : ∀ q ∈ fs1, u q.1 = false ∧ d q.1 = false)
    (hx : u x.1 = true)
    (hexp : cfg.imageExpiryMinutes * 60 < nowT - x.2) :
    cleanup_expired_images u d nowT cfg st =
      (sweep u d nowT (cfg.imageExpiryMinutes * 60) fs1 st).1 ∧
    (sweep u d nowT (cfg.imageExpiryMinutes * 60) st.artifacts st).2 = false := by
  have hab := sweep_abort u d nowT (cfg.imageExpiryMinutes * 60) x hx hexp fs2 fs1 st h1
  constructor
  · show (sweep u d nowT (cfg.imageExpiryMinutes * 60) st.artifacts st).1 = _
    rw [hsplit, hab]
  · rw [hsplit, hab]

theorem C3_sweep_abort_amended_witness :
    stC3.artifacts = [] ++ ("a", 0) :: [("b", 0)] ∧
    (cleanup_expired_images (fun s => s == "a") (fun _ => false) 100000 cfg0 stC3 =
        (sweep (fun s => s == "a") (fun _ => false) 100000
          (cfg0.imageExpiryMinutes * 60) [] stC3).1 ∧
      (sweep (fun s => s == "a") (fun _ => false) 100000
        (cfg0.imageExpiryMinutes * 60) stC3.artifacts stC3).2 = false) :=
  ⟨by decide,
    C3_sweep_abort_amended (fun s => s == "a") (fun _ => false) 100000 cfg0 stC3
      [] [("b", 0)] ("a", 0) (by decide)
      (fun q hq => absurd hq (List.not_mem_nil q)) (by decide) (by decide)⟩

/-- C4: code bug.  The flatten step passes an alpha mask to the paste only
when the mode is RGBA, so a fully transparent LA pixel is pasted without its
alpha and becomes black (its raw luminance), while the same pixel in RGBA or
palette mode correctly becomes white: optimize_image does not turn
transparent LA pixels white. -/
theorem C4_la_transparent_black :
    optimizedPImage (gConst laImg) "input" = some rgbBlack ∧
    optimizedPImage (gConst rgbaImg) "input" = some rgbWhite ∧
    optimizedPImage (gConst palImg) "input" = some rgbWhite ∧
    rgbBlack.pix ≠ [Pix.rgb 255 255 255] := by
  refine ⟨?_, ?_, ?_, ?_⟩ <;> decide

/-- C6: a submission rejected for backpressure (queue at the maximum), an
unknown style key, or an unknown aspect-ratio key returns the state exactly
unchanged: the rejection happens before any scratch directory or file is
written, no record is stored, nothing is enqueued, and the queue length is
unchanged. -/
theorem C6_reject_no_side_effects (cfg : Config) (w : Nat → Bool) (id : String)
    (req : JobRequest) (st : SysState)
    (h : (create_job cfg w id req st).2 = Except.error AdmissionError.serverBusy ∨
      (create_job cfg w id req st).2 = Except.error AdmissionError.invalidStyle ∨
      (create_job cfg w id req st).2 = Except.error AdmissionError.invalidAspect) :
    (create_job cfg w id req st).1 = st := by
  unfold create_job at h ⊢
  by_cases h1 : MAX_QUEUED_JOBS ≤ st.queue.length
  · rw [if_pos h1]
  · rw [if_neg h1] at h ⊢
    by_cases h2 : req.images.length < MIN_IMAGES
    · rw [if_pos h2] at h
      simp at h
    · rw [if_neg h2] at h ⊢
      by_cases h3 : MAX_IMAGES < req.images.length
      · rw [if_pos h3] at h
        simp at h
      · rw [if_neg h3] at h ⊢
        cases hFO : firstOversize req.images 0 with
        | some i => rfl
        | none =>
          rw [hFO] at h
          simp only [] at h ⊢
          by_cases h4 : MAX_TOTAL_SIZE < (req.images.map String.length).sum
          · rw [if_pos h4] at h
            simp at h
          · rw [if_neg h4] at h ⊢
            by_cases h5 : (STYLE_PRESETS.find? (fun e => e.1 == req.style)).isNone = true
            · rw [if_pos h5]
            · rw [if_neg h5] at h ⊢
              by_cases h6 : (!(ASPECT_RATIOS.contains req.aspectRatio)) = true
              · rw [if_pos h6]
              · rw [if_neg h6] at h
                rcases hSI : saveImages w id req.images 0
                    { st with scratchDirs :=
                        if st.scratchDirs.contains id then st.scratchDirs
                        else id :: st.scratchDirs } with ⟨st2, pr⟩
                rw [hSI] at h
                cases pr with
                | none => simp at h
                | some paths => simp at h

theorem C6_reject_no_side_effects_witness :
    ((create_job cfg0 (fun _ => true) "j" reqBadStyle initState).2 =
        Except.error AdmissionError.serverBusy ∨
      (create_job cfg0 (fun _ => true) "j" reqBadStyle initState).2 =
        Except.error AdmissionError.invalidStyle ∨
      (create_job cfg0 (fun _ => true) "j" reqBadStyle initState).2 =
        Except.error AdmissionError.invalidAspect) ∧
    (create_job cfg0 (fun _ => true) "j" reqBadStyle initState).1 = initState :=
  ⟨by decide,
    C6_reject_no_side_effects cfg0 (fun _ => true) "j" reqBadStyle initState
      (by decide)⟩

/-- C8: optimize_image never upscales: for every decodable input, the
produced image is no wider or taller than the (EXIF-transposed) original, its
longest edge is at most OPTIMIZE_MAX_SIZE = 768, the dimensions are exactly
unchanged when the longest edge was already at most 768, and both dimensions
are scaled by one common ratio (aspect ratio preserved up to the integer
truncation the code performs). -/
theorem C8_no_upscale (g : Gateway) (data : String) (im : PImage)
    (h : g.decodePix data = some im) :
    ∃ pi, optimizedPImage g data = some pi ∧
      pi.width ≤ (g.exifT im).width ∧ pi.height ≤ (g.exifT im).height ∧
      max pi.width pi.height ≤ OPTIMIZE_MAX_SIZE ∧
      (max (g.exifT im).width (g.exifT im).height ≤ OPTIMIZE_MAX_SIZE →
        pi.width = (g.exifT im).width ∧ pi.height = (g.exifT im).height) ∧
      ∃ a b, 0 < b ∧ pi.width = (g.exifT im).width * a / b ∧
        pi.height = (g.exifT im).height * a / b := by
  have hd := resizeImage_dims g.resample (optimizeFlatten (g.exifT im))
  have hw : (resizeImage g.resample (optimizeFlatten (g.exifT im))).width =
      (resizeDims (optimizeFlatten (g.exifT im)).width
        (optimizeFlatten (g.exifT im)).height).1 := congrArg Prod.fst hd
  have hh : (resizeImage g.resample (optimizeFlatten (g.exifT im))).height =
      (resizeDims (optimizeFlatten (g.exifT im)).width
        (optimizeFlatten (g.exifT im)).height).2 := congrArg Prod.snd hd
  rw [optimizeFlatten_width, optimizeFlatten_height] at hw hh
  refine ⟨resizeImage g.resample (optimizeFlatten (g.exifT im)), ?_, ?_, ?_, ?_, ?_, ?_⟩
  · rw [optimizedPImage, h]
    rfl
  · rw [hw]
    exact (resizeDims_le _ _).1
  · rw [hh]
    exact (resizeDims_le _ _).2
  · rw [hw, hh]
    exact resizeDims_max_le _ _
  · intro hs
    rw [hw, hh, resizeDims_small _ _ hs]
    exact ⟨rfl, rfl⟩
  · rw [hw, hh]
    exact resizeDims_ratio _ _

theorem C8_no_upscale_witness :
    (gConst bigImg).decodePix "d" = some bigImg ∧
    ∃ pi, optimizedPImage (gConst bigImg) "d" = some pi ∧
      pi.width ≤ ((gConst bigImg).exifT bigImg).width ∧
      pi.height ≤ ((gConst bigImg).exifT bigImg).height ∧
      max pi.width pi.height ≤ OPTIMIZE_MAX_SIZE ∧
      (max ((gConst bigImg).exifT bigImg).width
          ((gConst bigImg).exifT bigImg).height ≤ OPTIMIZE_MAX_SIZE →
        pi.width = ((gConst bigImg).exifT bigImg).width ∧
        pi.height = ((gConst bigImg).exifT bigImg).height) ∧
      ∃ a b, 0 < b ∧ pi.width = ((gConst bigImg).exifT bigImg).width * a / b ∧
        pi.height = ((gConst bigImg).exifT bigImg).height * a / b :=
  ⟨rfl, C8_no_upscale (gConst bigImg) "d" bigImg rfl⟩

def opsC5 : List SysOp :=
  [SysOp.submit (fun _ => true) "a" req0,
   SysOp.worker (gConst rgbaImg) noFaults 5 false]

def opsC9 : List SysOp :=
  [SysOp.submit (fun _ => true) "a" req0,
   SysOp.submit (fun _ => true) "b" req0,
   SysOp.worker (gConst rgbaImg) noFaults 5 false]

/-- C5: in every reachable execution (every run from the initial state in
which submissions use fresh ids), the sequence of status values ever
successfully written for any job is monotone along
queued → processing → (completed | failed): statuses never decrease in rank,
no write follows a terminal status, and the first write, if any, is queued. -/
theorem C5_status_monotone (cfg : Config) (ops : List SysOp) (j : String)
    (h : runOK cfg initState ops = true) :
    ChainOK (histOf (run cfg initState ops) j) ∧
    (histOf (run cfg initState ops) j = [] ∨
      (histOf (run cfg initState ops) j).head? = some Status.queued) := by
  have hInv := inv_run cfg ops initState inv_init h
  exact ⟨hInv.chain j, hInv.headQ j⟩

theorem C5_status_monotone_witness :
    runOK cfg0 initState opsC5 = true ∧
    (ChainOK (histOf (run cfg0 initState opsC5) "a") ∧
      (histOf (run cfg0 initState opsC5) "a" = [] ∨
        (histOf (run cfg0 initState opsC5) "a").head? = some Status.queued)) :=
  ⟨by decide, C5_status_monotone cfg0 opsC5 "a" (by decide)⟩

/-- C9: FIFO with exactly-once delivery — in every reachable execution the
ids delivered by the worker's blocking dequeue, in delivery order, form a
prefix of the ids in enqueue order (so ids come out in the order they were
LPUSHed), and no id is ever delivered twice. -/
theorem C9_queue_fifo (cfg : Config) (ops : List SysOp)
    (h : runOK cfg initState ops = true) :
    (∃ rest, (run cfg initState ops).enqueuedLog =
      (run cfg initState ops).deliveredLog ++ rest) ∧
    (run cfg initState ops).deliveredLog.Nodup := by
  have hInv := inv_run cfg ops initState inv_init h
  refine ⟨⟨(run cfg initState ops).queue.reverse, hInv.logEq⟩, ?_⟩
  have hnd := hInv.enqNd
  rw [hInv.logEq] at hnd
  exact (List.nodup_append.1 hnd).1

theorem C9_queue_fifo_witness :
    runOK cfg0 initState opsC9 = true ∧
    ((∃ rest, (run cfg0 initState opsC9).enqueuedLog =
      (run cfg0 initState opsC9).deliveredLog ++ rest) ∧
    (run cfg0 initState opsC9).deliveredLog.Nodup) :=
  ⟨by decide, C9_queue_fifo cfg0 opsC9 (by decide)⟩

/-- C10: when the shutdown flag is observed right after the blocking dequeue
returns an id, that id is discarded: immediately afterwards it is out of the
queue yet its record still says queued, and it stays that way — still queued
and never re-enqueued — across every further well-formed sequence of system
events. -/
theorem C10_discarded_job_stays_queued (cfg : Config) (pre : List SysOp)
    (g : Gateway) (f : Faults) (now : Nat) (ops : List SysOp) (j : String)
    (hpre : runOK cfg initState pre = true)
    (hlast : (run cfg initState pre).queue.getLast? = some j)
    (hops : runOK cfg (step cfg (run cfg initState pre)
      (SysOp.worker g f now true)) ops = true) :
    (j ∉ (step cfg (run cfg initState pre) (SysOp.worker g f now true)).queue ∧
      jobStatus (step cfg (run cfg initState pre) (SysOp.worker g f now true)) j =
        some Status.queued) ∧
    (jobStatus (run cfg (step cfg (run cfg initState pre)
        (SysOp.worker g f now true)) ops) j = some Status.queued ∧
      j ∉ (run cfg (step cfg (run cfg initState pre)
        (SysOp.worker g f now true)) ops).queue) := by
  have hInv := inv_run cfg pre initState inv_init hpre
  have hjq : j ∈ (run cfg initState pre).queue := mem_of_getLast? hlast
  obtain ⟨x1, x2, x3⟩ := hInv.qFresh j hjq
  have hstep : step cfg (run cfg initState pre) (SysOp.worker g f now true) =
      { run cfg initState pre with
        queue := (run cfg initState pre).queue.dropLast,
        deliveredLog := (run cfg initState pre).deliveredLog ++ [j] } := by
    show workerIteration g f cfg now true (run cfg initState pre) = _
    rw [workerIteration, hlast]
    rfl
  have hnq : j ∉ (run cfg initState pre).queue.dropLast :=
    not_mem_dropLast_of_nodup hInv.qNodup hlast
  have hS1 : Stuck (step cfg (run cfg initState pre)
      (SysOp.worker g f now true)) j := by
    rw [hstep]
    exact ⟨x2, hnq, mem_enq_of_mem_queue hInv hjq, x3⟩
  have hS2 := stuck_run cfg ops _ j hS1 hops
  exact ⟨⟨by rw [hstep]; exact hnq, hS1.1⟩, hS2.1, hS2.2.1⟩

def opsC10pre : List SysOp := [SysOp.submit (fun _ => true) "a" req0]

def opsC10post : List SysOp :=
  [SysOp.reap (fun _ => false) (fun _ => false) 100000,
   SysOp.submit (fun _ => true) "b" req0,
   SysOp.worker (gConst rgbaImg) noFaults 7 false]

theorem C10_discarded_job_stays_queued_witness :
    runOK cfg0 initState opsC10pre = true ∧
    (run cfg0 initState opsC10pre).queue.getLast? = some "a" ∧
    runOK cfg0 (step cfg0 (run cfg0 initState opsC10pre)
      (SysOp.worker (gConst rgbaImg) noFaults 5 true)) opsC10post = true ∧
    (("a" ∉ (step cfg0 (run cfg0 initState opsC10pre)
        (SysOp.worker (gConst rgbaImg) noFaults 5 true)).queue ∧
      jobStatus (step cfg0 (run cfg0 initState opsC10pre)
        (SysOp.worker (gConst rgbaImg) noFaults 5 true)) "a" =
        some Status.queued) ∧
    (jobStatus (run cfg0 (step cfg0 (run cfg0 initState opsC10pre)
        (SysOp.worker (gConst rgbaImg) noFaults 5 true)) opsC10post) "a" =
        some Status.queued ∧
      "a" ∉ (run cfg0 (step cfg0 (run cfg0 initState opsC10pre)
        (SysOp.worker (gConst rgbaImg) noFaults 5 true)) opsC10post).queue)) :=
  ⟨by decide, by decide, by decide,
    C10_discarded_job_stays_queued cfg0 opsC10pre (gConst rgbaImg) noFaults 5
      opsC10post "a" (by decide) (by decide) (by decide)⟩

/-! ## Fault-free pipeline characterization (for the ordering claim) -/

theorem readFile_eq_of_scratch {a b : SysState} (h : a.scratchFiles = b.scratchFiles)
    (p : SPath) : readFile a p = readFile b p := by
  rw [readFile, readFile, h]

theorem saveImages_allOk (dir : String) :
    ∀ (imgs : List String) (i : Nat) (st : SysState),
      ∃ st', saveImages (fun _ => true) dir imgs i st =
          (st', some ((List.range imgs.length).map (fun k => (⟨dir, i + k⟩ : SPath)))) ∧
        (∀ p : SPath, p.idx < i → readFile st' p = readFile st p) ∧
        (∀ k, k < imgs.length →
          readFile st' ⟨dir, i + k⟩ = some (imgs.getD k "")) := by
  intro imgs
  induction imgs with
  | nil =>
    intro i st
    exact ⟨st, rfl, fun p _ => rfl, fun k hk => absurd hk (by simp)⟩
  | cons img rest ih =>
    intro i st
    obtain ⟨st2, hrec, hpres, hread⟩ := ih (i + 1) (writeFile ⟨dir, i⟩ img st)
    refine ⟨st2, ?_, ?_, ?_⟩
    · have hstep : saveImages (fun _ => true) dir (img :: rest) i st =
          (match saveImages (fun _ => true) dir rest (i + 1)
              (writeFile ⟨dir, i⟩ img st) with
            | (st2, some ps) => (st2, some ((⟨dir, i⟩ : SPath) :: ps))
            | (st2, none) => (st2, none)) := rfl
      rw [hstep, hrec]
      simp only [List.length_cons, List.range_succ_eq_map, List.map_cons,
        List.map_map, Nat.add_zero]
      refine congrArg (fun l => (st2, some ((⟨dir, i⟩ : SPath) :: l))) ?_
      refine List.map_congr_left (fun b _ => ?_)
      show (⟨dir, i + 1 + b⟩ : SPath) = ⟨dir, i + (b + 1)⟩
      have hn : i + 1 + b = i + (b + 1) := by omega
      rw [hn]
    · intro p hp
      rw [hpres p (Nat.lt_succ_of_lt hp)]
      refine readFile_writeFile_ne ⟨dir, i⟩ img st p ?_
      intro hEq
      subst hEq
      exact Nat.lt_irrefl i hp
    · intro k hk
      cases k with
      | zero =>
        show readFile st2 ⟨dir, i⟩ = some img
        rw [hpres ⟨dir, i⟩ (Nat.lt_succ_self i), readFile_writeFile_self]
      | succ k2 =>
        have h2 := hread k2 (Nat.lt_of_succ_lt_succ hk)
        have h3 : i + (k2 + 1) = i + 1 + k2 := by omega
        rw [h3]
        exact h2

theorem optimizeLoop_noFault (g : Gateway) (jobId : String) (total : Nat) :
    ∀ (ps : List SPath) (i u : Nat) (st : SysState) (cont : SPath → String),
      (∀ p ∈ ps, readFile st p = some (cont p)) →
      (∀ p ∈ ps, (optimizedBytes g (cont p)).isSome = true) →
      ∃ st' u', optimizeLoop g noFaults jobId total ps i u st =
          (st', u',
            Except.ok (ps.map (fun p => (optimizedBytes g (cont p)).getD ""))) ∧
        st'.scratchFiles = st.scratchFiles ∧ st'.genCalls = st.genCalls := by
  intro ps
  induction ps with
  | nil =>
    intro i u st cont hread hopt
    exact ⟨st, u, rfl, rfl, rfl⟩
  | cons p rest ih =>
    intro i u st cont hread hopt
    have hob : (optimizedBytes g (cont p)).isSome = true :=
      hopt p (List.mem_cons_self _ _)
    rcases hOB : optimizedBytes g (cont p) with _ | ob
    · rw [hOB] at hob
      exact absurd hob (by simp)
    rcases hU : update_job_status false jobId Status.processing
        (progressExtra (optMsg i total)) st with ⟨st1, rb⟩
    have hrb : rb = false := by
      have h2 := upd_false_not_raised jobId Status.processing
        (progressExtra (optMsg i total)) st
      rw [hU] at h2
      exact h2
    subst hrb
    have hsc : st1.scratchFiles = st.scratchFiles := by
      have h3 := upd_scratchFiles false jobId Status.processing
        (progressExtra (optMsg i total)) st
      rw [hU] at h3
      exact h3
    have hgc : st1.genCalls = st.genCalls := by
      have h3 := upd_genCalls false jobId Status.processing
        (progressExtra (optMsg i total)) st
      rw [hU] at h3
      exact h3
    have hrd1 : readFile st1 p = some (cont p) := by
      rw [readFile_eq_of_scratch hsc p]
      exact hread p (List.mem_cons_self _ _)
    obtain ⟨st2, u2, hrec, hsc2, hgc2⟩ := ih (i + 1) (u + 1) st1 cont
      (fun q hq => by
        rw [readFile_eq_of_scratch hsc q]
        exact hread q (List.mem_cons_of_mem _ hq))
      (fun q hq => hopt q (List.mem_cons_of_mem _ hq))
    refine ⟨st2, u2, ?_, hsc2.trans hsc, hgc2.trans hgc⟩
    simp only [optimizeLoop]
    rw [show noFaults.updateRaises u = false from rfl, hU]
    simp only []
    rw [show noFaults.readRaises i = false from rfl]
    simp only [Bool.false_eq_true, if_false]
    rw [hrd1]
    simp only []
    rw [show noFaults.optRaises i = false from rfl]
    simp only [Bool.false_eq_true, if_false]
    rw [hOB]
    simp only []
    rw [hrec]
    simp only [List.map_cons, hOB, Option.getD_some]

theorem uploadLoop_noFault (g : Gateway) (jobId : String) (total : Nat) :
    ∀ (obs : List String) (i u : Nat) (st : SysState),
      ∃ st' u', uploadLoop g noFaults jobId total obs i u st =
          (st', u', Except.ok (obs.map g.upload)) ∧
        st'.scratchFiles = st.scratchFiles ∧ st'.genCalls = st.genCalls := by
  intro obs
  induction obs with
  | nil =>
    intro i u st
    exact ⟨st, u, rfl, rfl, rfl⟩
  | cons ob rest ih =>
    intro i u st
    rcases hU : update_job_status false jobId Status.processing
        (progressExtra (upMsg i total)) st with ⟨st1, rb⟩
    have hrb : rb = false := by
      have h2 := upd_false_not_raised jobId Status.processing
        (progressExtra (upMsg i total)) st
      rw [hU] at h2
      exact h2
    subst hrb
    have hsc : st1.scratchFiles = st.scratchFiles := by
      have h3 := upd_scratchFiles false jobId Status.processing
        (progressExtra (upMsg i total)) st
      rw [hU] at h3
      exact h3
    have hgc : st1.genCalls = st.genCalls := by
      have h3 := upd_genCalls false jobId Status.processing
        (progressExtra (upMsg i total)) st
      rw [hU] at h3
      exact h3
    obtain ⟨st2, u2, hrec, hsc2, hgc2⟩ := ih (i + 1) (u + 1) st1
    refine ⟨st2, u2, ?_, hsc2.trans hsc, hgc2.trans hgc⟩
    simp only [uploadLoop]
    rw [show noFaults.updateRaises u = false from rfl, hU]
    simp only []
    rw [show noFaults.upRaises i = false from rfl]
    simp only [Bool.false_eq_true, if_false]
    rw [hrec]
    simp only [List.map_cons]

theorem pjTryBody_genCalls (g : Gateway) (cfg : Config) (now : Nat)
    (jobId : String) (job : JobRecord) (st : SysState) (cont : SPath → String)
    (hread : ∀ p ∈ job.imagePaths, readFile st p = some (cont p))
    (hopt : ∀ p ∈ job.imagePaths, (optimizedBytes g (cont p)).isSome = true) :
    (pjTryBody g noFaults cfg now jobId job st).1.genCalls =
      st.genCalls ++ [(stylePrompt job.style,
        job.imagePaths.map (fun p => g.upload ((optimizedBytes g (cont p)).getD "")),
        job.aspectRatio)] := by
  obtain ⟨stA, uA, hOL, hscA, hgcA⟩ :=
    optimizeLoop_noFault g jobId job.imagePaths.length job.imagePaths 0 1 st
      cont hread hopt
  rcases hU1 : update_job_status false jobId Status.processing
      (progressExtra "Uploading images...") stA with ⟨stB, rb1⟩
  have hrb1 : rb1 = false := by
    have h2 := upd_false_not_raised jobId Status.processing
      (progressExtra "Uploading images...") stA
    rw [hU1] at h2
    exact h2
  subst hrb1
  have hgcB : stB.genCalls = stA.genCalls := by
    have h3 := upd_genCalls false jobId Status.processing
      (progressExtra "Uploading images...") stA
    rw [hU1] at h3
    exact h3
  obtain ⟨stC, uC, hUL, hscC, hgcC⟩ := uploadLoop_noFault g jobId
    (job.imagePaths.map (fun p => (optimizedBytes g (cont p)).getD "")).length
    (job.imagePaths.map (fun p => (optimizedBytes g (cont p)).getD ""))
    0 (uA + 1) stB
  rcases hU2 : update_job_status false jobId Status.processing
      (progressExtra "Generating collage...") stC with ⟨stD, rb2⟩
  have hrb2 : rb2 = false := by
    have h2 := upd_false_not_raised jobId Status.processing
      (progressExtra "Generating collage...") stC
    rw [hU2] at h2
    exact h2
  subst hrb2
  have hgcD : stD.genCalls = stC.genCalls := by
    have h3 := upd_genCalls false jobId Status.processing
      (progressExtra "Generating collage...") stC
    rw [hU2] at h3
    exact h3
  have hurls : (job.imagePaths.map
        (fun p => (optimizedBytes g (cont p)).getD "")).map g.upload =
      job.imagePaths.map
        (fun p => g.upload ((optimizedBytes g (cont p)).getD "")) := by
    rw [List.map_map]
    rfl
  have hgoal : st.genCalls ++ [(stylePrompt job.style,
      job.imagePaths.map (fun p => g.upload ((optimizedBytes g (cont p)).getD "")),
      job.aspectRatio)] = stD.genCalls ++ [(stylePrompt job.style,
      (job.imagePaths.map (fun p => (optimizedBytes g (cont p)).getD "")).map g.upload,
      job.aspectRatio)] := by
    rw [hgcD, hgcC, hgcB, hgcA, hurls]
  simp only [pjTryBody]
  rw [hOL]
  simp only []
  rw [show noFaults.updateRaises uA = false from rfl, hU1]
  simp only []
  rw [hUL]
  simp only []
  rw [show noFaults.updateRaises uC = false from rfl, hU2]
  simp only []
  rw [show noFaults.genRaises = false from rfl]
  simp only [Bool.false_eq_true, if_false]
  cases hgen : g.generate (stylePrompt job.style)
      ((job.imagePaths.map (fun p => (optimizedBytes g (cont p)).getD "")).map
        g.upload) job.aspectRatio with
  | nil =>
    simp only []
    rw [hgoal]
  | cons r rs =>
    simp only []
    rcases hU3 : update_job_status false jobId Status.processing
        (progressExtra "Downloading result...")
        { stD with genCalls := stD.genCalls ++ [(stylePrompt job.style,
          (job.imagePaths.map (fun p => (optimizedBytes g (cont p)).getD "")).map
            g.upload, job.aspectRatio)] } with ⟨stE, rb3⟩
    have hrb3 : rb3 = false := by
      have h2 := upd_false_not_raised jobId Status.processing
        (progressExtra "Downloading result...")
        { stD with genCalls := stD.genCalls ++ [(stylePrompt job.style,
          (job.imagePaths.map (fun p => (optimizedBytes g (cont p)).getD "")).map
            g.upload, job.aspectRatio)] }
      rw [hU3] at h2
      exact h2
    subst hrb3
    have hgcE : stE.genCalls = stD.genCalls ++ [(stylePrompt job.style,
        (job.imagePaths.map (fun p => (optimizedBytes g (cont p)).getD "")).map
          g.upload, job.aspectRatio)] := by
      have h3 := upd_genCalls false jobId Status.processing
        (progressExtra "Downloading result...")
        { stD with genCalls := stD.genCalls ++ [(stylePrompt job.style,
          (job.imagePaths.map (fun p => (optimizedBytes g (cont p)).getD "")).map
            g.upload, job.aspectRatio)] }
      rw [hU3] at h3
      exact h3
    rw [show noFaults.updateRaises (uC + 1) = false from rfl, hU3]
    simp only []
    rw [show noFaults.fetchRaises = false from rfl,
      show noFaults.saveRaises = false from rfl]
    simp only [Bool.false_eq_true, if_false]
    rcases hU4 : update_job_status false jobId Status.completed
        (completedExtra (API_BASE_URL ++ "/output/" ++ jobId ++ ".png")
          (expiresAtIso now cfg))
        { stE with artifacts :=
          (jobId, now) :: stE.artifacts.filter (fun a => a.1 != jobId) }
        with ⟨stF, rb4⟩
    have hgcF : stF.genCalls = stE.genCalls := by
      have h3 := upd_genCalls false jobId Status.completed
        (completedExtra (API_BASE_URL ++ "/output/" ++ jobId ++ ".png")
          (expiresAtIso now cfg))
        { stE with artifacts :=
          (jobId, now) :: stE.artifacts.filter (fun a => a.1 != jobId) }
      rw [hU4] at h3
      exact h3
    rw [show noFaults.updateRaises (uC + 2) = false from rfl, hU4]
    cases rb4 with
    | true =>
      show stF.genCalls = _
      rw [hgcF, hgcE, hgoal]
    | false =>
      show stF.genCalls = _
      rw [hgcF, hgcE, hgoal]

theorem process_job_genCalls (g : Gateway) (cfg : Config) (now : Nat)
    (jobId : String) (st : SysState) (job : JobRecord) (ttl : Option Nat)
    (cont : SPath → String)
    (hG : jobGet st jobId = some (job, ttl))
    (hread : ∀ p ∈ job.imagePaths, readFile st p = some (cont p))
    (hopt : ∀ p ∈ job.imagePaths, (optimizedBytes g (cont p)).isSome = true) :
    (process_job g noFaults cfg now jobId st).1.genCalls =
      st.genCalls ++ [(stylePrompt job.style,
        job.imagePaths.map (fun p => g.upload ((optimizedBytes g (cont p)).getD "")),
        job.aspectRatio)] := by
  rcases hU0 : update_job_status false jobId Status.processing
      (progressExtra "Optimizing images...") st with ⟨st0, rb0⟩
  have hrb0 : rb0 = false := by
    have h2 := upd_false_not_raised jobId Status.processing
      (progressExtra "Optimizing images...") st
    rw [hU0] at h2
    exact h2
  subst hrb0
  have hsc0 : st0.scratchFiles = st.scratchFiles := by
    have h3 := upd_scratchFiles false jobId Status.processing
      (progressExtra "Optimizing images...") st
    rw [hU0] at h3
    exact h3
  have hgc0 : st0.genCalls = st.genCalls := by
    have h3 := upd_genCalls false jobId Status.processing
      (progressExtra "Optimizing images...") st
    rw [hU0] at h3
    exact h3
  rcases hB : pjTryBody g noFaults cfg now jobId job st0 with ⟨st1, res⟩
  have hBgen : st1.genCalls = st0.genCalls ++ [(stylePrompt job.style,
      job.imagePaths.map (fun p => g.upload ((optimizedBytes g (cont p)).getD "")),
      job.aspectRatio)] := by
    have h3 := pjTryBody_genCalls g cfg now jobId job st0 cont
      (fun p hp => by
        rw [readFile_eq_of_scratch hsc0 p]
        exact hread p hp) hopt
    rw [hB] at h3
    exact h3
  simp only [process_job]
  rw [hG]
  simp only []
  rw [show noFaults.updateRaises 0 = false from rfl, hU0]
  simp only []
  rw [hB]
  cases res with
  | ok v =>
    show (pjCleanup job.imageDir st1).genCalls = _
    rw [pjCleanup_genCalls, hBgen, hgc0]
  | error msg =>
    rcases hU9 : update_job_status false jobId Status.failed
        (failedExtra msg) st1 with ⟨st2, rb9⟩
    have hgc2 : st2.genCalls = st1.genCalls := by
      have h3 := upd_genCalls false jobId Status.failed (failedExtra msg) st1
      rw [hU9] at h3
      exact h3
    rw [show noFaults.failUpdRaises = false from rfl]
    simp only []
    rw [hU9]
    show (pjCleanup job.imageDir st2).genCalls = _
    rw [pjCleanup_genCalls, hgc2, hBgen, hgc0]

theorem map_zero_add_path (dir : String) (n : Nat) :
    (List.range n).map (fun k => (⟨dir, 0 + k⟩ : SPath)) =
      (List.range n).map (fun k => (⟨dir, k⟩ : SPath)) :=
  List.map_congr_left (fun a _ => by rw [Nat.zero_add])

theorem range_map_get {α β : Type} (G : α → β) (d : α) :
    ∀ l : List α, (List.range l.length).map (fun k => G (l.getD k d)) = l.map G := by
  intro l
  induction l with
  | nil => rfl
  | cons a t ih =>
    show (List.range (t.length + 1)).map (fun k => G ((a :: t).getD k d)) = _
    rw [List.range_succ_eq_map]
    simp only [List.map_cons, List.map_map]
    congr 1

theorem create_allOk_spec (cfg : Config) (id : String) (req : JobRequest)
    (st : SysState)
    (hok : (create_job cfg (fun _ => true) id req st).2 = Except.ok id) :
    jobGet (create_job cfg (fun _ => true) id req st).1 id =
      some ({ jobId := id, status := Status.queued, statusDetail := none,
              imagePaths := (List.range req.images.length).map
                (fun k => (⟨id, k⟩ : SPath)),
              imageDir := some id, style := req.style,
              aspectRatio := req.aspectRatio,
              imageUrl := none, expiresAt := none, error := none },
        some (cfg.imageExpiryMinutes * 2 * 60)) ∧
    (∀ k, k < req.images.length →
      readFile (create_job cfg (fun _ => true) id req st).1 ⟨id, k⟩ =
        some (req.images.getD k "")) ∧
    (create_job cfg (fun _ => true) id req st).1.genCalls = st.genCalls := by
  unfold create_job at hok ⊢
  by_cases h1 : MAX_QUEUED_JOBS ≤ st.queue.length
  · rw [if_pos h1] at hok
    simp at hok
  · rw [if_neg h1] at hok ⊢
    by_cases h2 : req.images.length < MIN_IMAGES
    · rw [if_pos h2] at hok
      simp at hok
    · rw [if_neg h2] at hok ⊢
      by_cases h3 : MAX_IMAGES < req.images.length
      · rw [if_pos h3] at hok
        simp at hok
      · rw [if_neg h3] at hok ⊢
        cases hFO : firstOversize req.images 0 with
        | some i =>
          rw [hFO] at hok
          simp at hok
        | none =>
          rw [hFO] at hok
          simp only [] at hok ⊢
          by_cases h4 : MAX_TOTAL_SIZE < (req.images.map String.length).sum
          · rw [if_pos h4] at hok
            simp at hok
          · rw [if_neg h4] at hok ⊢
            by_cases h5 : (STYLE_PRESETS.find? (fun e => e.1 == req.style)).isNone = true
            · rw [if_pos h5] at hok
              simp at hok
            · rw [if_neg h5] at hok ⊢
              by_cases h6 : (!(ASPECT_RATIOS.contains req.aspectRatio)) = true
              · rw [if_pos h6] at hok
                simp at hok
              · rw [if_neg h6] at hok ⊢
                obtain ⟨st2a, hSI, hpres, hread⟩ := saveImages_allOk id req.images 0
                  { st with scratchDirs :=
                      if st.scratchDirs.contains id then st.scratchDirs
                      else id :: st.scratchDirs }
                have hcore : coreView st2a = coreView st := by
                  have h9 := saveImages_core (fun _ => true) id req.images 0
                    { st with scratchDirs :=
                        if st.scratchDirs.contains id then st.scratchDirs
                        else id :: st.scratchDirs }
                  rw [hSI] at h9
                  exact h9
                rw [hSI] at hok ⊢
                simp only [] at hok ⊢
                rw [map_zero_add_path]
                refine ⟨?_, ?_, ?_⟩
                · exact jobGet_setex_self id _ (cfg.imageExpiryMinutes * 2 * 60) st2a
                · intro k hk
                  show readFile st2a ⟨id, k⟩ = some (req.images.getD k "")
                  have h8 := hread k hk
                  rw [Nat.zero_add] at h8
                  exact h8
                · show st2a.genCalls = st.genCalls
                  exact coreView_genCalls hcore

/-- C7: ordering — for an accepted job, the record's stored scratch paths
are exactly img_000 .. img_{n-1} of the job's directory in submission order,
the i-th scratch file holds the i-th submitted payload verbatim, and when the
worker (fault-free, with every payload decodable) processes the job, the URL
list passed to the generate call is the per-index image of the submission
list: position i holds the upload of the optimized i-th payload. -/
theorem C7_image_order (cfg : Config) (id : String) (req : JobRequest)
    (st : SysState) (g : Gateway) (now : Nat)
    (hok : (create_job cfg (fun _ => true) id req st).2 = Except.ok id)
    (hdec : ∀ im ∈ req.images, (optimizedBytes g im).isSome = true) :
    ((jobGet (create_job cfg (fun _ => true) id req st).1 id).map
        (fun p => p.1.imagePaths)) =
      some ((List.range req.images.length).map (fun k => (⟨id, k⟩ : SPath))) ∧
    (∀ k, k < req.images.length →
      readFile (create_job cfg (fun _ => true) id req st).1 ⟨id, k⟩ =
        some (req.images.getD k "")) ∧
    (process_job g noFaults cfg now id
        (create_job cfg (fun _ => true) id req st).1).1.genCalls =
      (create_job cfg (fun _ => true) id req st).1.genCalls ++
        [(stylePrompt req.style,
          req.images.map (fun im => g.upload ((optimizedBytes g im).getD "")),
          req.aspectRatio)] := by
  obtain ⟨hrec, hreads, hgen0⟩ := create_allOk_spec cfg id req st hok
  refine ⟨?_, hreads, ?_⟩
  · rw [hrec]
    rfl
  · have hmain := process_job_genCalls g cfg now id
      (create_job cfg (fun _ => true) id req st).1
      { jobId := id, status := Status.queued, statusDetail := none,
        imagePaths := (List.range req.images.length).map
          (fun k => (⟨id, k⟩ : SPath)),
        imageDir := some id, style := req.style, aspectRatio := req.aspectRatio,
        imageUrl := none, expiresAt := none, error := none }
      (some (cfg.imageExpiryMinutes * 2 * 60))
      (fun p => req.images.getD p.idx "")
      hrec
      (fun p hp => by
        obtain ⟨k, hkr, hpk⟩ := List.mem_map.1 hp
        subst hpk
        exact hreads k (List.mem_range.1 hkr))
      (fun p hp => by
        obtain ⟨k, hkr, hpk⟩ := List.mem_map.1 hp
        subst hpk
        have hk := List.mem_range.1 hkr
        refine hdec _ ?_
        show req.images.getD k "" ∈ req.images
        rw [List.getD_eq_getElem req.images "" hk]
        exact List.getElem_mem hk)
    have hlist : ((List.range req.images.length).map
          (fun k => (⟨id, k⟩ : SPath))).map
        (fun p => g.upload ((optimizedBytes g (req.images.getD p.idx "")).getD "")) =
        req.images.map (fun im => g.upload ((optimizedBytes g im).getD "")) := by
      rw [List.map_map,
        ← range_map_get (fun im => g.upload ((optimizedBytes g im).getD ""))
          "" req.images]
      exact List.map_congr_left (fun b _ => rfl)
    rw [hmain, hlist]

theorem C7_image_order_witness :
    (create_job cfg0 (fun _ => true) "j" req0 initState).2 = Except.ok "j" ∧
    (∀ im ∈ req0.images, (optimizedBytes (gConst rgbaImg) im).isSome = true) ∧
    (((jobGet (create_job cfg0 (fun _ => true) "j" req0 initState).1 "j").map
        (fun p => p.1.imagePaths)) =
      some ((List.range req0.images.length).map (fun k => (⟨"j", k⟩ : SPath))) ∧
    (∀ k, k < req0.images.length →
      readFile (create_job cfg0 (fun _ => true) "j" req0 initState).1 ⟨"j", k⟩ =
        some (req0.images.getD k "")) ∧
    (process_job (gConst rgbaImg) noFaults cfg0 5 "j"
        (create_job cfg0 (fun _ => true) "j" req0 initState).1).1.genCalls =
      (create_job cfg0 (fun _ => true) "j" req0 initState).1.genCalls ++
        [(stylePrompt req0.style,
          req0.images.map
            (fun im => (gConst rgbaImg).upload
              ((optimizedBytes (gConst rgbaImg) im).getD "")),
          req0.aspectRatio)]) :=
  ⟨by decide, by decide,
    C7_image_order cfg0 "j" req0 initState (gConst rgbaImg) 5
      (by decide) (by decide)⟩

end Bowerbirder
